import Mathlib

/-!
Clink `ecma48_terminal`: key decoder and SGR renderer

A shallow embedding of `clink/lib/ecma48_terminal.cpp` and the properties of
its SGR parameter fold, its key decoder `read()`, its resize check, its
`write()` and its capability detection `check_sgr_support()`.

Conventions of the embedding.

* A C `int` / `unsigned` / `DWORD` is a `Nat` holding its 32-bit pattern; the
  mask `~0x08` is therefore the literal `0xFFFFFFF7`, and an unsigned
  subtraction is written with an explicit `% 2 ^ 32`.
* The SGR parameters are `Int`: the parameter buffer is terminated by a
  negative entry.
* Text is a list of `wchar_t` code units (`Nat`); a C string ends at the first
  `0` or at the end of the list.
* The console is explicit: what the program reads from it is an argument, what
  it sends to it is a returned list of operations.
-/

namespace Clink

/-! ## SGR parameter fold (`sgr_to_attr`, `fwrite_sgr_code`) -/

/-- The function `sgr_to_attr`: `map[colour & 7]` with
`map = { 0, 4, 2, 6, 1, 5, 3, 7 }`. For a two's complement `colour`,
`colour & 7` is `colour % 8`. -/
def sgr_to_attr (colour : Int) : Nat :=
  [0, 4, 2, 6, 1, 5, 3, 7].getD (colour % 8).toNat 0

/-- The number of slots of the buffer `int params[32]` of `fwrite_sgr_code`. -/
def sizeof_params : Nat := 32

/-- The counting loop `while (n < sizeof_array(params) && params[n] >= 0) ++n;`
started at `n`, the first argument being the buffer from slot `n` on. -/
def count_params : List Int → Nat → Nat
  | [], n => n
  | p :: rest, n => if n < sizeof_params ∧ p ≥ 0 then count_params rest (n + 1) else n

/-- The loop `for (i = 0; i < n; ++i)` of `fwrite_sgr_code`, entered at index
`i` with attribute `attr`. Every read of `params` is bounds-checked: `none`
is a read outside the buffer (or the exhaustion of `fuel`, which the caller
sets to `n`, one unit per iteration). -/
def sgr_loop (params : List Int) (n defaults : Nat) : Nat → Nat → Nat → Option Nat
  | 0, i, attr => if i < n then none else some attr
  | fuel + 1, i, attr =>
    if i < n then
      match params[i]? with
      | none => none
      | some param =>
        if param = 0 then -- reset
          sgr_loop params n defaults fuel (i + 1) defaults
        else if param = 1 then -- fg intensity (bright)
          sgr_loop params n defaults fuel (i + 1) (attr ||| 0x08)
        else if param = 2 ∨ param = 22 then -- fg intensity (normal)
          sgr_loop params n defaults fuel (i + 1) (attr &&& 0xFFFFFFF7)
        else if param = 4 then -- bg intensity (bright)
          sgr_loop params n defaults fuel (i + 1) (attr ||| 0x80)
        else if param = 24 then -- bg intensity (normal)
          sgr_loop params n defaults fuel (i + 1) (attr &&& 0xFFFFFF7F)
        else if (param - 30) % 2 ^ 32 < 8 then -- fg colour
          sgr_loop params n defaults fuel (i + 1) ((attr &&& 0xf8) ||| sgr_to_attr (param - 30))
        else if param = 39 then -- default fg colour
          sgr_loop params n defaults fuel (i + 1) ((attr &&& 0xf8) ||| (defaults &&& 0x07))
        else if (param - 40) % 2 ^ 32 < 8 then -- bg colour
          sgr_loop params n defaults fuel (i + 1)
            ((attr &&& 0x8f) ||| (sgr_to_attr (param - 40) <<< 4))
        else if param = 49 then -- default bg colour
          sgr_loop params n defaults fuel (i + 1) ((attr &&& 0x8f) ||| (defaults &&& 0x70))
        else if param = 38 ∨ param = 48 then -- extended colour (skipped)
          -- ++i; if (i >= n) break;
          if i + 1 ≥ n then some attr
          else
            match params[i + 1]? with
            | none => none
            | some sel =>
              -- switch (params[i]) { case 2: i += 3; case 5: i += 1; }  continue;
              sgr_loop params n defaults fuel
                ((if sel = 2 then i + 1 + 3 else if sel = 5 then i + 1 + 1 else i + 1) + 1) attr
        else
          sgr_loop params n defaults fuel (i + 1) attr
    else some attr

/-- The terminator `m` of an SGR token. -/
def CHAR_m : Nat := 109

/-- One call of `SetConsoleTextAttribute` or `WriteConsoleW`. -/
inductive ConsoleOp where
  | set_attr (attr : Nat)
  | write_text (text : List Nat)
  deriving DecidableEq, Repr

/-- The body of `fwrite_sgr_code` after `parse_ansi_code_w` has run: `i` is
the terminator it returned and `params` the buffer it filled. The result is
the returned attribute and the console calls made (`none`: see `sgr_loop`). -/
def fwrite_sgr_params (i : Nat) (params : List Int) (current defaults : Nat) :
    Option (Nat × List ConsoleOp) :=
  if i ≠ CHAR_m then some (current, [])
  else
    let n := count_params params 0
    match sgr_loop params n defaults n 0 current with
    | none => none
    | some attr => some (attr, [ConsoleOp.set_attr attr])

/-- The function `fwrite_sgr_code(code, current, defaults)`;
`parse_ansi_code_w`, declared in the file and defined elsewhere, is an
argument: it returns the terminator and the contents of `params`. -/
def fwrite_sgr_code (parse_ansi_code_w : List Nat → Nat × List Int) (code : List Nat)
    (current defaults : Nat) : Option (Nat × List ConsoleOp) :=
  fwrite_sgr_params (parse_ansi_code_w code).1 (parse_ansi_code_w code).2 current defaults

/-- The parameters of a token: the first `n` slots of the buffer, `n` being
the count made by `fwrite_sgr_code`. -/
def sgr_params (params : List Int) : List Int :=
  params.take (count_params params 0)

/-- A buffer of 32 slots holding `ps` and then negative entries. -/
def params_buffer (ps : List Int) : List Int :=
  ps ++ List.replicate (sizeof_params - ps.length) (-1)

/-- The attribute written by a parameter that is not an extended colour
selector: the branches of the loop of `fwrite_sgr_code` before `38`/`48`. -/
def sgr_param_attr (defaults attr : Nat) (param : Int) : Nat :=
  if param = 0 then defaults
  else if param = 1 then attr ||| 0x08
  else if param = 2 ∨ param = 22 then attr &&& 0xFFFFFFF7
  else if param = 4 then attr ||| 0x80
  else if param = 24 then attr &&& 0xFFFFFF7F
  else if (param - 30) % 2 ^ 32 < 8 then (attr &&& 0xf8) ||| sgr_to_attr (param - 30)
  else if param = 39 then (attr &&& 0xf8) ||| (defaults &&& 0x07)
  else if (param - 40) % 2 ^ 32 < 8 then (attr &&& 0x8f) ||| (sgr_to_attr (param - 40) <<< 4)
  else if param = 49 then (attr &&& 0x8f) ||| (defaults &&& 0x70)
  else attr

/-- The loop of `fwrite_sgr_code` as a recursion on the list of parameters
still to be read, `skip` of which are sub-parameters of an extended colour
selector. It is proved equal to `sgr_loop` (`sgr_loop_eq_list`). -/
def sgr_list (defaults : Nat) : Nat → Nat → List Int → Nat
  | _, attr, [] => attr
  | skip + 1, attr, _ :: rest => sgr_list defaults skip attr rest
  | 0, attr, param :: rest =>
    if param = 38 ∨ param = 48 then
      match rest with
      | [] => attr
      | sel :: rest2 =>
        sgr_list defaults (if sel = 2 then 3 else if sel = 5 then 1 else 0) attr rest2
    else sgr_list defaults 0 (sgr_param_attr defaults attr param) rest

/-- Whether, after the loop of `fwrite_sgr_code` has gone through the
parameters `ps` (entering with `skip` sub-parameters of an extended colour
selector still to skip), the parameter that follows `ps` is read as a
parameter (`param = params[i]`), and not consumed as the sub-parameter of a
selector `38`/`48` of `ps` (`++i`, `switch (params[i])`, `i += 3`, `i += 1`). -/
def sgr_next_is_param : Nat → List Int → Bool
  | 0, [] => true
  | _ + 1, [] => false
  | skip + 1, _ :: rest => sgr_next_is_param skip rest
  | 0, param :: rest =>
    if param = 38 ∨ param = 48 then
      match rest with
      | [] => false
      | sel :: rest2 =>
        sgr_next_is_param (if sel = 2 then 3 else if sel = 5 then 1 else 0) rest2
    else sgr_next_is_param 0 rest

/-! ## Console records and constants (Windows SDK) -/

/-- Windows SDK (`wincon.h`): `RIGHT_ALT_PRESSED`. -/
def RIGHT_ALT_PRESSED : Nat := 0x0001
/-- Windows SDK (`wincon.h`): `LEFT_ALT_PRESSED`. -/
def LEFT_ALT_PRESSED : Nat := 0x0002
/-- Windows SDK (`wincon.h`): `RIGHT_CTRL_PRESSED`. -/
def RIGHT_CTRL_PRESSED : Nat := 0x0004
/-- Windows SDK (`wincon.h`): `LEFT_CTRL_PRESSED`. -/
def LEFT_CTRL_PRESSED : Nat := 0x0008
/-- Windows SDK (`wincon.h`): `SHIFT_PRESSED`. -/
def SHIFT_PRESSED : Nat := 0x0010
/-- Windows SDK (`wincon.h`): `ENHANCED_KEY`. -/
def ENHANCED_KEY : Nat := 0x0100
/-- Windows SDK (`wincon.h`): event type `KEY_EVENT`. -/
def KEY_EVENT : Nat := 0x0001
/-- Windows SDK (`wincon.h`): event type `WINDOW_BUFFER_SIZE_EVENT`. -/
def WINDOW_BUFFER_SIZE_EVENT : Nat := 0x0004
/-- Windows SDK (`winuser.h`): `VK_MENU`, the Alt key. -/
def VK_MENU : Nat := 0x12
/-- Windows SDK (`winuser.h`): `VK_PRIOR` (page up). -/
def VK_PRIOR : Nat := 0x21
/-- Windows SDK (`winuser.h`): `VK_NEXT` (page down). -/
def VK_NEXT : Nat := 0x22
/-- Windows SDK (`winuser.h`): `VK_END`. -/
def VK_END : Nat := 0x23
/-- Windows SDK (`winuser.h`): `VK_HOME`. -/
def VK_HOME : Nat := 0x24
/-- Windows SDK (`winuser.h`): `VK_LEFT`. -/
def VK_LEFT : Nat := 0x25
/-- Windows SDK (`winuser.h`): `VK_UP`. -/
def VK_UP : Nat := 0x26
/-- Windows SDK (`winuser.h`): `VK_RIGHT`. -/
def VK_RIGHT : Nat := 0x27
/-- Windows SDK (`winuser.h`): `VK_DOWN`. -/
def VK_DOWN : Nat := 0x28
/-- Windows SDK (`winuser.h`): `VK_INSERT`. -/
def VK_INSERT : Nat := 0x2D
/-- Windows SDK (`winuser.h`): `VK_DELETE`. -/
def VK_DELETE : Nat := 0x2E

/-- The fields of `CONSOLE_SCREEN_BUFFER_INFO` the program reads: one answer
of `GetConsoleScreenBufferInfo`. -/
structure CONSOLE_SCREEN_BUFFER_INFO where
  dwSize_X : Nat
  dwSize_Y : Nat
  srWindow_Top : Int
  srWindow_Bottom : Int
  wAttributes : Nat
  deriving DecidableEq, Repr

/-- The fields of `KEY_EVENT_RECORD` the program reads. -/
structure KEY_EVENT_RECORD where
  bKeyDown : Bool
  UnicodeChar : Nat
  wVirtualKeyCode : Nat
  wVirtualScanCode : Nat
  dwControlKeyState : Nat
  deriving DecidableEq, Repr

/-- An `INPUT_RECORD`: the event type and, for a key event, the key record. -/
structure INPUT_RECORD where
  EventType : Nat
  KeyEvent : KEY_EVENT_RECORD
  deriving DecidableEq, Repr

/-- What the console will answer: the successive results of
`GetConsoleScreenBufferInfo` and the queue of records `ReadConsoleInputW`
delivers, one per call. -/
structure ConsoleIn where
  screen : List CONSOLE_SCREEN_BUFFER_INFO
  input : List INPUT_RECORD
  deriving DecidableEq, Repr

/-- The static variables: `carry` of `read()` and the global
`g_last_buffer_size`. Both are `0` at program start. -/
structure Statics where
  carry : Nat
  g_last_buffer_size : Nat
  deriving DecidableEq, Repr

/-- The window of a screen buffer as the console reports it: `srWindow.Top`
and `srWindow.Bottom` are `SHORT`s and the window has at least one row. -/
def window_ok (csbi : CONSOLE_SCREEN_BUFFER_INFO) : Prop :=
  -32768 ≤ csbi.srWindow_Top ∧ csbi.srWindow_Top ≤ csbi.srWindow_Bottom
    ∧ csbi.srWindow_Bottom ≤ 32767

/-! ## Resize check -/

/-- The packed geometry of `read()`:
`i = (csbi.dwSize.X << 16); i |= (csbi.srWindow.Bottom - csbi.srWindow.Top) + 1;`
as a `DWORD`. -/
def buffer_size (csbi : CONSOLE_SCREEN_BUFFER_INFO) : Nat :=
  ((csbi.dwSize_X <<< 16) % 2 ^ 32)
    ||| ((csbi.srWindow_Bottom - csbi.srWindow_Top + 1) % 2 ^ 32).toNat

/-- The resize check of `read()`:
`if (!g_last_buffer_size || g_last_buffer_size != i)` with its body. `some (r, g)`
when the branch is taken (`r` calls of `on_terminal_resize`, `g` the new
`g_last_buffer_size`, then `goto loop`), `none` when it is not. -/
def resize_check (g_last_buffer_size i : Nat) : Option (Nat × Nat) :=
  if g_last_buffer_size = 0 ∨ g_last_buffer_size ≠ i then
    some (if g_last_buffer_size ≠ 0 then 1 else 0, i)
  else none

/-- The resize check run on successive geometry values, from the given
`g_last_buffer_size`: the number of `on_terminal_resize` calls at each
observation. -/
def resize_polls : Nat → List Nat → List Nat
  | _, [] => []
  | g, i :: rest =>
    match resize_check g i with
    | some (r, g2) => r :: resize_polls g2 rest
    | none => 0 :: resize_polls g rest

/-! ## Key decoder (`ecma48_terminal::read`) -/

/-- `CTRL_PRESSED = LEFT_CTRL_PRESSED|RIGHT_CTRL_PRESSED`. -/
def CTRL_PRESSED : Nat := LEFT_CTRL_PRESSED ||| RIGHT_CTRL_PRESSED

/-- The table `enhanced_vks`. -/
def enhanced_vks : List Nat :=
  [VK_UP, VK_DOWN, VK_LEFT, VK_RIGHT, VK_HOME, VK_END, VK_INSERT, VK_DELETE, VK_PRIOR, VK_NEXT]

/-- The table `mod_map` (columns: normal, shift, ctrl, ctrl+shift). -/
def mod_map : List (List Nat) :=
  [ [0x47, 0x61, 0x77, 0x21],   -- home
    [0x48, 0x62, 0x54, 0x22],   -- up
    [0x49, 0x63, 0x55, 0x23],   -- pgup
    [0x4b, 0x64, 0x73, 0x24],   -- left
    [0x4d, 0x65, 0x74, 0x25],   -- right
    [0x4f, 0x66, 0x75, 0x26],   -- end
    [0x50, 0x67, 0x56, 0x27],   -- down
    [0x51, 0x68, 0x76, 0x28],   -- pgdn
    [0x52, 0x69, 0x57, 0x29],   -- insert
    [0x53, 0x6a, 0x58, 0x2a] ]  -- delete

/-- The column selected by the modifiers:
`j += !!(key_flags & SHIFT_PRESSED); j += !!(key_flags & CTRL_PRESSED) << 1;`. -/
def mod_column (key_flags : Nat) : Nat :=
  (if key_flags &&& SHIFT_PRESSED ≠ 0 then 1 else 0)
    + ((if key_flags &&& CTRL_PRESSED ≠ 0 then 1 else 0) <<< 1)

/-- The loop over `mod_map`: the rows still to be tried and the current
`carry`; the result is `carry` after the loop. -/
def mod_map_carry (key_sc key_flags : Nat) : List (List Nat) → Nat → Nat
  | [], carry => carry
  | row :: rest, carry =>
    if row.getD 0 0 ≠ key_sc then mod_map_carry key_sc key_flags rest carry
    else row.getD (mod_column key_flags) 0

/-- The macro `CONTAINS(l, r)`: `(unsigned)(key_vk - l) <= (r - l)`. -/
def CONTAINS (key_vk l r : Nat) : Bool :=
  decide ((key_vk + 2 ^ 32 - l) % 2 ^ 32 ≤ r - l)

/-- How one pass through the body of `read()` ends, with the value of `carry`. -/
inductive Flow where
  | goto_loop (carry : Nat)
  | ret (key_char carry : Nat)
  deriving DecidableEq, Repr

/-- The end of `read()`: the special case for shift-tab, then `return key_char`. -/
def shift_tab (carry key_char key_flags : Nat) : Flow :=
  if key_char = 9 ∧ carry = 0 ∧ key_flags &&& SHIFT_PRESSED ≠ 0 then Flow.ret 0xe0 90
  else Flow.ret key_char carry

/-- The part of `read()` from `if (key_char == 0)` to the `return`, shared by
the carried code and a fresh key. -/
def decode_key (carry key_char key_vk key_sc key_flags : Nat) : Flow :=
  if key_char = 0 then
    -- infer ENHANCED_KEY for the numpad keys
    let key_flags := if key_vk ∈ enhanced_vks then key_flags ||| ENHANCED_KEY else key_flags
    if key_flags &&& ENHANCED_KEY ≠ 0 then
      let carry := mod_map_carry key_sc key_flags mod_map carry
      if carry = 0 then Flow.goto_loop carry -- blacklist
      else shift_tab carry 0xe0 key_flags
    else if key_flags &&& CTRL_PRESSED = 0 then Flow.goto_loop carry
    else if CONTAINS key_vk 65 90 then shift_tab carry (key_vk - (65 - 1)) key_flags
    else if CONTAINS key_vk 0xdb 0xdd then shift_tab carry (key_vk - (0xdb - 0x1b)) key_flags
    else if key_vk = 0x32 then shift_tab carry 0 key_flags
    else if key_vk = 0x36 then shift_tab carry 0x1e key_flags
    else if key_vk = 0xbd then shift_tab carry 0x1f key_flags
    else Flow.goto_loop carry
  else if key_flags &&& ENHANCED_KEY = 0 ∧ key_char > 0x7f then
    shift_tab carry (key_char ||| 0x8000000) key_flags
  else shift_tab carry key_char key_flags

/-- How one pass from the label `loop:` ends: `again` is a `goto loop`,
`done` a `return`, each with the statics, the rest of the console trace and the
number of `on_terminal_resize` calls made; `blocked` when the console trace has
no further answer (the real call waits in `ReadConsoleInputW`). -/
inductive Pass where
  | again (st : Statics) (con : ConsoleIn) (resizes : Nat)
  | done (key_char : Nat) (st : Statics) (con : ConsoleIn) (resizes : Nat)
  | blocked
  deriving DecidableEq, Repr

/-- A `Flow` as a `Pass`. -/
def Flow.toPass (g_last_buffer_size : Nat) (con : ConsoleIn) : Flow → Pass
  | Flow.goto_loop carry => Pass.again ⟨carry, g_last_buffer_size⟩ con 0
  | Flow.ret key_char carry => Pass.done key_char ⟨carry, g_last_buffer_size⟩ con 0

/-- One pass of `read()` from the label `loop:`. `get_clink_setting_int` is
the settings query (external). The call of `SetConsoleMode` before the label
and the local `alt`, which is assigned and never read, have no counterpart. -/
def read_pass (get_clink_setting_int : String → Int) (st : Statics) (con : ConsoleIn) : Pass :=
  if st.carry ≠ 0 then
    -- key_flags = ENHANCED_KEY; key_char = carry; carry = 0;
    (decode_key 0 st.carry 0 0 ENHANCED_KEY).toPass st.g_last_buffer_size con
  else
    match con.screen with
    | [] => Pass.blocked
    | csbi :: screen =>
      match resize_check st.g_last_buffer_size (buffer_size csbi) with
      | some (r, g) => Pass.again ⟨st.carry, g⟩ ⟨screen, con.input⟩ r
      | none =>
        -- Fresh read from the console.
        match con.input with
        | [] => Pass.blocked
        | record :: input =>
          if record.EventType ≠ KEY_EVENT then Pass.again st ⟨screen, input⟩ 0
          else
            match screen with
            | [] => Pass.blocked
            | csbi2 :: screen2 =>
              if record.EventType = WINDOW_BUFFER_SIZE_EVENT then
                Pass.again ⟨st.carry, ((csbi2.dwSize_X <<< 16) ||| csbi2.dwSize_Y) % 2 ^ 32⟩
                  ⟨screen2, input⟩ 1
              else
                let key := record.KeyEvent
                if key.bKeyDown = false then
                  if key.wVirtualKeyCode = VK_MENU ∧ key.UnicodeChar ≠ 0 then
                    -- goto end
                    Pass.done key.UnicodeChar st ⟨screen2, input⟩ 0
                  else Pass.again st ⟨screen2, input⟩ 0
                else
                  let altgr_sub : Bool :=
                    decide (key.dwControlKeyState &&& LEFT_ALT_PRESSED ≠ 0)
                      && decide (key.dwControlKeyState
                          &&& (LEFT_CTRL_PRESSED ||| RIGHT_CTRL_PRESSED) ≠ 0)
                      && decide (key.UnicodeChar ≠ 0)
                  let key_char :=
                    if altgr_sub = true ∧ get_clink_setting_int "use_altgr_substitute" = 0
                    then 0 else key.UnicodeChar
                  (decode_key st.carry key_char key.wVirtualKeyCode key.wVirtualScanCode
                    key.dwControlKeyState).toPass st.g_last_buffer_size ⟨screen2, input⟩

/-- The result of a call of `read()`: the code returned, the statics and the
console trace left, and the number of `on_terminal_resize` calls made. -/
structure ReadResult where
  key_char : Nat
  st : Statics
  con : ConsoleIn
  resizes : Nat
  deriving DecidableEq, Repr

/-- The function `ecma48_terminal::read()`: passes from `loop:` until one
returns. `fuel` bounds the number of passes, `resizes` counts the
`on_terminal_resize` calls so far; `none` when the console trace (or the
fuel) ends before a code is returned. -/
def read (get_clink_setting_int : String → Int) : Nat → Statics → ConsoleIn → Nat →
    Option ReadResult
  | 0, _, _, _ => none
  | fuel + 1, st, con, resizes =>
    match read_pass get_clink_setting_int st con with
    | Pass.blocked => none
    | Pass.again st2 con2 r => read get_clink_setting_int fuel st2 con2 (resizes + r)
    | Pass.done key_char st2 con2 r => some ⟨key_char, st2, con2, resizes + r⟩

/-! ## SGR renderer (`ecma48_terminal::write`) -/

/-- The character a pointer into the text points at: the head of the rest of
the buffer, `0` (the terminator) at its end. -/
def deref (p : List Nat) : Nat := p.headD 0

/-- The loop `while (*next)` of `write()`. `find_next_ansi_code_w` (declared in
the file, defined elsewhere) is an argument: for the text at `next` it returns
the offset `ansi_code - next` of the next code and its size `ansi_size`.
`fuel` bounds the number of iterations; the result is the list of console
calls made, `none` when the fuel ends first (or `fwrite_sgr_code` reads
outside its buffer). -/
def write_loop (find_next_ansi_code_w : List Nat → Nat × Nat)
    (parse_ansi_code_w : List Nat → Nat × List Int) (attr_def : Nat) :
    Nat → List Nat → Nat → Option (List ConsoleOp)
  | fuel, next, attr_cur =>
    if deref next = 0 then some []
    else
      match fuel with
      | 0 => none
      | fuel + 1 =>
        let ansi_code := next.drop (find_next_ansi_code_w next).1
        let ansi_size := (find_next_ansi_code_w next).2
        -- Dispatch console write
        let written := ConsoleOp.write_text (next.take (find_next_ansi_code_w next).1)
        -- Process ansi code.
        if deref ansi_code ≠ 0 then
          match fwrite_sgr_code parse_ansi_code_w ansi_code attr_cur attr_def with
          | none => none
          | some (attr, ops) =>
            match write_loop find_next_ansi_code_w parse_ansi_code_w attr_def fuel
                (ansi_code.drop ansi_size) attr with
            | none => none
            | some rest => some (written :: (ops ++ rest))
        else
          match write_loop find_next_ansi_code_w parse_ansi_code_w attr_def fuel
              (ansi_code.drop ansi_size) attr_cur with
          | none => none
          | some rest => some (written :: rest)

/-- The function `ecma48_terminal::write(chars, char_count)`: `m_enable_sgr`
is the member flag, `csbi` the answer of `GetConsoleScreenBufferInfo`, `chars`
the buffer from the pointer on. The result is the list of console calls. -/
def write (find_next_ansi_code_w : List Nat → Nat × Nat)
    (parse_ansi_code_w : List Nat → Nat × List Int) (m_enable_sgr : Bool)
    (csbi : CONSOLE_SCREEN_BUFFER_INFO) (chars : List Nat) (char_count : Nat) (fuel : Nat) :
    Option (List ConsoleOp) :=
  if m_enable_sgr = false then some [ConsoleOp.write_text (chars.take char_count)]
  else
    match write_loop find_next_ansi_code_w parse_ansi_code_w csbi.wAttributes fuel chars
        csbi.wAttributes with
    | none => none
    | some ops => some (ops ++ [ConsoleOp.set_attr csbi.wAttributes])

/-- The characters sent to the console writer: the concatenation of the
`WriteConsoleW` calls. -/
def console_text : List ConsoleOp → List Nat
  | [] => []
  | ConsoleOp.set_attr _ :: rest => console_text rest
  | ConsoleOp.write_text text :: rest => text ++ console_text rest

/-- The text with its escape codes taken out, as the claim on `write()` words
it: up to the terminating `0`, the characters before each code that the
tokenizer locates are kept and the code itself is left out, whatever its
terminator. `fuel` bounds the number of codes. -/
def text_without_codes (find_next_ansi_code_w : List Nat → Nat × Nat) :
    Nat → List Nat → List Nat
  | 0, _ => []
  | fuel + 1, text =>
    if deref text = 0 then []
    else
      text.take (find_next_ansi_code_w text).1
        ++ text_without_codes find_next_ansi_code_w fuel
            ((text.drop (find_next_ansi_code_w text).1).drop (find_next_ansi_code_w text).2)

/-- The attribute of the console after a list of console calls, `attr` being
its attribute before them. -/
def console_attr (attr : Nat) : List ConsoleOp → Nat
  | [] => attr
  | ConsoleOp.set_attr a :: rest => console_attr a rest
  | ConsoleOp.write_text _ :: rest => console_attr attr rest

/-! ## Capability detection (`ecma48_terminal::check_sgr_support`) -/

/-- The value of `m_enable_sgr` set by the constructor `ecma48_terminal()`. -/
def m_enable_sgr_init : Bool := true

/-- The table `dll_names` of `check_sgr_support`. -/
def dll_names : List String :=
  ["conemuhk.dll", "conemuhk64.dll", "ansi.dll", "ansi32.dll", "ansi64.dll"]

/-- The loop over `dll_names`: `true` when `GetModuleHandle` finds one of the
names still to be tried (the function then sets the flag and returns). -/
def find_dll (GetModuleHandle : String → Bool) : List String → Bool
  | [] => false
  | dll_name :: rest =>
    if GetModuleHandle dll_name = true then true else find_dll GetModuleHandle rest

/-- The function `ecma48_terminal::check_sgr_support()`. `GetModuleHandle`
tells whether a module is loaded (handle not null), `get_clink_setting_int`
is the settings query; the result is `m_enable_sgr` afterwards and the list of
the settings queried. -/
def check_sgr_support (GetModuleHandle : String → Bool)
    (get_clink_setting_int : String → Int) (m_enable_sgr : Bool) : Bool × List String :=
  if find_dll GetModuleHandle dll_names = true then (false, [])
  else if get_clink_setting_int "ansi_code_support" = 0 then (false, ["ansi_code_support"])
  else (m_enable_sgr, ["ansi_code_support"])

/-! ## Escape tokens -/

/-- A decimal digit. -/
def is_digit (c : Nat) : Bool := decide (48 ≤ c ∧ c ≤ 57)

/-- A letter, the terminator of an escape token. -/
def is_letter (c : Nat) : Bool := decide ((65 ≤ c ∧ c ≤ 90) ∨ (97 ≤ c ∧ c ≤ 122))

/-- Modelled from the spec: the body of an escape token after `ESC [`, "an
ordered sequence of integer parameters plus a single terminating letter":
digits and `;` up to the first letter. The size of that body when the text
starts with one. -/
def token_body_size : List Nat → Option Nat
  | [] => none
  | c :: rest =>
    if is_letter c then some 1
    else if is_digit c ∨ c = 59 then
      match token_body_size rest with
      | some n => some (n + 1)
      | none => none
    else none

/-- Modelled from the spec: the size of the escape token the text starts
with (`ESC [`, parameters, terminating letter), if it starts with one. -/
def token_size : List Nat → Option Nat
  | 27 :: 91 :: rest =>
    match token_body_size rest with
    | some n => some (n + 2)
    | none => none
  | _ => none

/-- Modelled from the spec: `find_next_ansi_code_w` is declared in
`ecma48_terminal.cpp` and defined elsewhere; it "locates the next escape
token". The result is the offset of the first escape token of the string and
its size; when there is none, the offset of the end of the string and `0`. -/
def find_next_ansi_code_w : List Nat → Nat × Nat
  | [] => (0, 0)
  | c :: rest =>
    if c = 0 then (0, 0)
    else
      match token_size (c :: rest) with
      | some n => (0, n)
      | none => ((find_next_ansi_code_w rest).1 + 1, (find_next_ansi_code_w rest).2)

/-- Modelled from the spec: the parameters of a token body and its
terminator; `cur` is the number being read. "Absent parameters [are] treated
as omitted, not zero." -/
def parse_token_body : List Nat → Option Nat → Nat × List Int
  | [], cur => (0, (cur.map Int.ofNat).toList)
  | c :: rest, cur =>
    if is_digit c then parse_token_body rest (some (cur.getD 0 * 10 + (c - 48)))
    else if c = 59 then
      ((parse_token_body rest none).1,
        (cur.map Int.ofNat).toList ++ (parse_token_body rest none).2)
    else (c, (cur.map Int.ofNat).toList)

/-- Modelled from the spec: `parse_ansi_code_w` is declared in
`ecma48_terminal.cpp` and defined elsewhere; it returns the terminator of the
token at `code` and fills the 32-slot buffer with its parameters, ended by a
negative entry. For a text that does not start with `ESC [` the terminator
returned is `0`. -/
def parse_ansi_code_w : List Nat → Nat × List Int
  | 27 :: 91 :: rest =>
    ((parse_token_body rest none).1,
      params_buffer ((parse_token_body rest none).2.take sizeof_params))
  | _ => (0, params_buffer [])

/-! ## Carry protocol -/

/-- The values `carry` may hold when a pass ends: `0`, or, when the pass
returns the marker `0xE0`, the payload `Z` or an entry of `mod_map`. -/
def Flow.carry_ok : Flow → Prop
  | Flow.goto_loop carry => carry = 0
  | Flow.ret key_char carry =>
    carry = 0 ∨ (key_char = 0xe0 ∧ (carry = 90 ∨ carry ∈ mod_map.flatten))

/-! ## Reachable statics -/

/-- The statics a program can be in: those of program start, and those left
by a call of `read()` that returned, from statics it could be in. -/
inductive Reachable : Statics → Prop where
  | start : Reachable ⟨0, 0⟩
  | call (get_clink_setting_int : String → Int) (fuel : Nat) (st : Statics) (con : ConsoleIn)
      (resizes : Nat) (r : ReadResult) :
      Reachable st → read get_clink_setting_int fuel st con resizes = some r → Reachable r.st

/-! ## Sample console data -/

/-- A settings query that answers `0` to every name. -/
def settings_off : String → Int := fun _ => 0

/-- A settings query that answers `1` to every name. -/
def settings_on : String → Int := fun _ => 1

/-- A screen buffer 80 columns wide showing 25 rows, attribute `0x07`. -/
def screen_80x25 : CONSOLE_SCREEN_BUFFER_INFO := ⟨80, 300, 0, 24, 0x07⟩

/-- A screen buffer 100 columns wide showing 25 rows, attribute `0x07`. -/
def screen_100x25 : CONSOLE_SCREEN_BUFFER_INFO := ⟨100, 300, 0, 24, 0x07⟩

/-- The statics once the geometry of `screen_80x25` is recorded, no code pending. -/
def statics_80x25 : Statics := ⟨0, buffer_size screen_80x25⟩

/-- A key-up record. -/
def key_up (UnicodeChar wVirtualKeyCode wVirtualScanCode dwControlKeyState : Nat) :
    INPUT_RECORD :=
  ⟨KEY_EVENT, ⟨false, UnicodeChar, wVirtualKeyCode, wVirtualScanCode, dwControlKeyState⟩⟩

/-- A key-down record. -/
def key_down (UnicodeChar wVirtualKeyCode wVirtualScanCode dwControlKeyState : Nat) :
    INPUT_RECORD :=
  ⟨KEY_EVENT, ⟨true, UnicodeChar, wVirtualKeyCode, wVirtualScanCode, dwControlKeyState⟩⟩

/-! ## Theorems: the SGR parameter fold -/

theorem sgr_list_nil (d skip attr : Nat) : sgr_list d skip attr [] = attr := by
  cases skip <;> rfl

theorem sgr_list_skip (d : Nat) : ∀ (skip attr : Nat) (l : List Int),
    sgr_list d skip attr l = sgr_list d 0 attr (l.drop skip) := by
  intro skip
  induction skip with
  | zero => intro attr l; simp
  | succ k ih =>
    intro attr l
    cases l with
    | nil => simp [sgr_list_nil]
    | cons p rest => simp only [sgr_list, List.drop_succ_cons]; exact ih attr rest

theorem sgr_loop_step_plain (params : List Int) (n d fuel i attr : Nat) (p : Int)
    (hi : i < n) (hp : params[i]? = some p) (hext : ¬(p = 38 ∨ p = 48)) :
    sgr_loop params n d (fuel + 1) i attr
      = sgr_loop params n d fuel (i + 1) (sgr_param_attr d attr p) := by
  rw [sgr_loop]
  simp only [hi, hp, if_true, if_neg hext]
  unfold sgr_param_attr
  by_cases h1 : p = 0
  · simp only [if_pos h1]
  simp only [if_neg h1]
  by_cases h2 : p = 1
  · simp only [if_pos h2]
  simp only [if_neg h2]
  by_cases h3 : p = 2 ∨ p = 22
  · simp only [if_pos h3]
  simp only [if_neg h3]
  by_cases h4 : p = 4
  · simp only [if_pos h4]
  simp only [if_neg h4]
  by_cases h5 : p = 24
  · simp only [if_pos h5]
  simp only [if_neg h5]
  by_cases h6 : (p - 30) % 2 ^ 32 < 8
  · simp only [if_pos h6]
  simp only [if_neg h6]
  by_cases h7 : p = 39
  · simp only [if_pos h7]
  simp only [if_neg h7]
  by_cases h8 : (p - 40) % 2 ^ 32 < 8
  · simp only [if_pos h8]
  simp only [if_neg h8]
  by_cases h9 : p = 49
  · simp only [if_pos h9]
  simp only [if_neg h9]

theorem sgr_loop_step_ext (params : List Int) (n d fuel i attr : Nat) (p : Int)
    (hi : i < n) (hp : params[i]? = some p) (hext : p = 38 ∨ p = 48) :
    sgr_loop params n d (fuel + 1) i attr
      = if i + 1 ≥ n then some attr
        else match params[i + 1]? with
          | none => none
          | some sel =>
            sgr_loop params n d fuel
              ((if sel = 2 then i + 1 + 3 else if sel = 5 then i + 1 + 1 else i + 1) + 1) attr := by
  rw [sgr_loop]
  simp only [hi, hp, if_true]
  have h1 : ¬ p = 0 := by omega
  have h2 : ¬ p = 1 := by omega
  have h3 : ¬ (p = 2 ∨ p = 22) := by omega
  have h4 : ¬ p = 4 := by omega
  have h5 : ¬ p = 24 := by omega
  have h6 : ¬ (p - 30) % 2 ^ 32 < 8 := by omega
  have h7 : ¬ p = 39 := by omega
  have h8 : ¬ (p - 40) % 2 ^ 32 < 8 := by omega
  have h9 : ¬ p = 49 := by omega
  simp only [if_neg h1, if_neg h2, if_neg h3, if_neg h4, if_neg h5, if_neg h6, if_neg h7,
    if_neg h8, if_neg h9, if_pos hext]

theorem sgr_list_cons_plain (d attr : Nat) (p : Int) (rest : List Int)
    (hext : ¬(p = 38 ∨ p = 48)) :
    sgr_list d 0 attr (p :: rest) = sgr_list d 0 (sgr_param_attr d attr p) rest := by
  cases rest <;> simp only [sgr_list, if_neg hext]

theorem sgr_list_cons_ext (d attr : Nat) (p sel : Int) (rest : List Int)
    (hext : p = 38 ∨ p = 48) :
    sgr_list d 0 attr (p :: sel :: rest)
      = sgr_list d 0 attr (rest.drop (if sel = 2 then 3 else if sel = 5 then 1 else 0)) := by
  rw [sgr_list]
  simp only [if_pos hext]
  exact sgr_list_skip d _ attr rest

theorem sgr_list_cons_ext_nil (d attr : Nat) (p : Int) (hext : p = 38 ∨ p = 48) :
    sgr_list d 0 attr [p] = attr := by
  rw [sgr_list]
  simp only [if_pos hext]

/-- The index loop of `fwrite_sgr_code` computes the list recursion `sgr_list`
on the parameters from index `i` on, and never reads outside the buffer. -/
theorem sgr_loop_eq_list (params : List Int) (n d : Nat) (hn : n ≤ params.length) :
    ∀ (fuel i attr : Nat), n - i ≤ fuel →
      sgr_loop params n d fuel i attr = some (sgr_list d 0 attr ((params.take n).drop i)) := by
  intro fuel
  induction fuel with
  | zero =>
    intro i attr h
    have hi : ¬ i < n := by omega
    have hdrop : (params.take n).drop i = [] := by
      apply List.drop_eq_nil_of_le; simp; omega
    simp [sgr_loop, hi, hdrop, sgr_list_nil]
  | succ fuel ih =>
    intro i attr h
    by_cases hi : i < n
    · have hil : i < params.length := by omega
      have hp : params[i]? = some params[i] := List.getElem?_eq_getElem hil
      have hlt : i < (params.take n).length := by simp; omega
      have hdrop : (params.take n).drop i = params[i] :: (params.take n).drop (i + 1) := by
        rw [List.drop_eq_getElem_cons hlt]; simp
      by_cases hext : params[i] = 38 ∨ params[i] = 48
      · rw [sgr_loop_step_ext params n d fuel i attr _ hi hp hext, hdrop]
        by_cases hi1 : i + 1 ≥ n
        · have hnil : (params.take n).drop (i + 1) = [] := by
            apply List.drop_eq_nil_of_le; simp; omega
          rw [if_pos hi1, hnil, sgr_list_cons_ext_nil d attr _ hext]
        · have hi1l : i + 1 < params.length := by omega
          have hp1 : params[i + 1]? = some params[i + 1] := List.getElem?_eq_getElem hi1l
          have hlt1 : i + 1 < (params.take n).length := by simp; omega
          have hdrop1 : (params.take n).drop (i + 1)
              = params[i + 1] :: (params.take n).drop (i + 1 + 1) := by
            rw [List.drop_eq_getElem_cons hlt1]; simp
          rw [if_neg hi1, hp1, hdrop1, sgr_list_cons_ext d attr _ _ _ hext]
          simp only []
          have hfuel : n - ((if params[i + 1] = 2 then i + 1 + 3
              else if params[i + 1] = 5 then i + 1 + 1 else i + 1) + 1) ≤ fuel := by
            split_ifs <;> omega
          have hidx : ((params.take n).drop (i + 1 + 1)).drop
                (if params[i + 1] = 2 then 3 else if params[i + 1] = 5 then 1 else 0)
              = (params.take n).drop ((if params[i + 1] = 2 then i + 1 + 3
                  else if params[i + 1] = 5 then i + 1 + 1 else i + 1) + 1) := by
            rw [List.drop_drop]
            congr 1
            split_ifs <;> omega
          rw [ih _ attr hfuel, hidx]
      · rw [sgr_loop_step_plain params n d fuel i attr _ hi hp hext, hdrop,
          sgr_list_cons_plain d attr _ _ hext]
        exact ih (i + 1) _ (by omega)
    · have hdrop : (params.take n).drop i = [] := by
        apply List.drop_eq_nil_of_le; simp; omega
      rw [sgr_loop]
      simp [hi, hdrop, sgr_list_nil]

theorem count_params_le (l : List Int) : ∀ n, count_params l n ≤ n + l.length := by
  induction l with
  | nil => intro n; simp [count_params]
  | cons p rest ih =>
    intro n
    simp only [count_params, List.length_cons]
    split_ifs
    · have := ih (n + 1); omega
    · omega

theorem count_params_zero_le (params : List Int) : count_params params 0 ≤ params.length := by
  simpa using count_params_le params 0

theorem count_params_le_sizeof (l : List Int) : ∀ n, n ≤ sizeof_params →
    count_params l n ≤ sizeof_params := by
  induction l with
  | nil => intro n h; simpa [count_params] using h
  | cons p rest ih =>
    intro n h
    simp only [count_params]
    split_ifs with hc
    · exact ih (n + 1) hc.1
    · exact h

/-- An `m` token: the attribute returned and set is the list recursion on the
counted parameters; the bounds-checked loop returns a value. -/
theorem fwrite_sgr_params_m (params : List Int) (current defaults : Nat) :
    fwrite_sgr_params CHAR_m params current defaults
      = some (sgr_list defaults 0 current (sgr_params params),
          [ConsoleOp.set_attr (sgr_list defaults 0 current (sgr_params params))]) := by
  unfold fwrite_sgr_params
  simp only [ne_eq, not_true_eq_false, if_false]
  rw [sgr_loop_eq_list params _ defaults (count_params_zero_le params) _ 0 current (by omega)]
  simp [sgr_params]

theorem sgr_list_append_plain (d : Nat) (ps qs : List Int) :
    (∀ p ∈ ps, p ≠ 38 ∧ p ≠ 48) → ∀ attr,
      sgr_list d 0 attr (ps ++ qs) = sgr_list d 0 (sgr_list d 0 attr ps) qs := by
  induction ps with
  | nil => intro _ attr; simp [sgr_list_nil]
  | cons p rest ih =>
    intro h attr
    have hp : ¬(p = 38 ∨ p = 48) := by
      have := h p (List.mem_cons_self p rest); tauto
    rw [List.cons_append, sgr_list_cons_plain d attr p _ hp, sgr_list_cons_plain d attr p _ hp]
    exact ih (fun q hq => h q (List.mem_cons_of_mem p hq)) _

theorem and_or_right (a b c : Nat) : (a ||| b) &&& c = (a &&& c) ||| (b &&& c) := by
  rw [Nat.and_comm, Nat.and_or_distrib_left, Nat.and_comm c a, Nat.and_comm c b]

theorem testBit_false_of_lt (x k n : Nat) (h : x < 2 ^ n) (hk : n ≤ k) :
    x.testBit k = false :=
  Nat.testBit_lt_two_pow (lt_of_lt_of_le h (Nat.pow_le_pow_right (by decide) hk))

theorem sgr_to_attr_lt (c : Int) : sgr_to_attr c < 8 := by
  unfold sgr_to_attr
  have h1 : 0 ≤ c % 8 := Int.emod_nonneg c (by decide)
  have h2 : c % 8 < 8 := Int.emod_lt_of_pos c (by decide)
  have h3 : (c % 8).toNat < 8 := by omega
  interval_cases (c % 8).toNat <;> decide

theorem sgr_list_succ_cons (d skip a : Nat) (p : Int) (rest : List Int) :
    sgr_list d (skip + 1) a (p :: rest) = sgr_list d skip a rest := by
  rw [sgr_list]

theorem sgr_list_ext_skip (d a : Nat) (p sel : Int) (rest : List Int) (hext : p = 38 ∨ p = 48) :
    sgr_list d 0 a (p :: sel :: rest)
      = sgr_list d (if sel = 2 then 3 else if sel = 5 then 1 else 0) a rest := by
  simp only [sgr_list, if_pos hext]

/-- When the parameter that follows `pre` is read as a parameter, the loop on
`pre ++ t` is the loop on `pre` followed by the loop on `t`. -/
theorem sgr_list_split (d : Nat) : ∀ (n : Nat) (pre : List Int), pre.length = n →
    ∀ (skip a : Nat) (t : List Int), sgr_next_is_param skip pre = true →
      sgr_list d skip a (pre ++ t) = sgr_list d 0 (sgr_list d skip a pre) t := by
  intro n
  induction n using Nat.strong_induction_on with
  | _ n ih =>
    intro pre hlen skip a t hread
    cases pre with
    | nil =>
      cases skip with
      | zero => rw [List.nil_append, sgr_list_nil]
      | succ k => simp [sgr_next_is_param] at hread
    | cons p rest =>
      simp only [List.length_cons] at hlen
      cases skip with
      | succ k =>
        rw [sgr_next_is_param] at hread
        rw [List.cons_append, sgr_list_succ_cons, sgr_list_succ_cons]
        exact ih rest.length (by omega) rest rfl k a t hread
      | zero =>
        by_cases hext : p = 38 ∨ p = 48
        · cases rest with
          | nil => simp [sgr_next_is_param, hext] at hread
          | cons sel rest2 =>
            simp only [sgr_next_is_param, if_pos hext] at hread
            simp only [List.length_cons] at hlen
            rw [List.cons_append, List.cons_append, sgr_list_ext_skip d a p sel _ hext,
              sgr_list_ext_skip d a p sel _ hext]
            exact ih rest2.length (by omega) rest2 rfl _ a t hread
        · have hread2 : sgr_next_is_param 0 rest = true := by
            cases rest with
            | nil => rfl
            | cons sel rest2 => simpa only [sgr_next_is_param, if_neg hext] using hread
          rw [List.cons_append, sgr_list_cons_plain d a p _ hext,
            sgr_list_cons_plain d a p _ hext]
          exact ih rest.length (by omega) rest rfl 0 _ t hread2

/-- When the parameter that follows `pre` is consumed as a sub-parameter, it
has no effect: the loop on `pre ++ [x]` gives what the loop on `pre` gives. -/
theorem sgr_list_consumed (d : Nat) : ∀ (n : Nat) (pre : List Int), pre.length = n →
    ∀ (skip a : Nat) (x : Int), sgr_next_is_param skip pre = false →
      sgr_list d skip a (pre ++ [x]) = sgr_list d skip a pre := by
  intro n
  induction n using Nat.strong_induction_on with
  | _ n ih =>
    intro pre hlen skip a x hread
    cases pre with
    | nil =>
      cases skip with
      | zero => simp [sgr_next_is_param] at hread
      | succ k => rw [List.nil_append, sgr_list_succ_cons, sgr_list_nil, sgr_list_nil]
    | cons p rest =>
      simp only [List.length_cons] at hlen
      cases skip with
      | succ k =>
        rw [sgr_next_is_param] at hread
        rw [List.cons_append, sgr_list_succ_cons, sgr_list_succ_cons]
        exact ih rest.length (by omega) rest rfl k a x hread
      | zero =>
        by_cases hext : p = 38 ∨ p = 48
        · cases rest with
          | nil =>
            rw [List.cons_append, List.nil_append, sgr_list_ext_skip d a p x [] hext,
              sgr_list_nil, sgr_list_cons_ext_nil d a p hext]
          | cons sel rest2 =>
            simp only [sgr_next_is_param, if_pos hext] at hread
            simp only [List.length_cons] at hlen
            rw [List.cons_append, List.cons_append, sgr_list_ext_skip d a p sel _ hext,
              sgr_list_ext_skip d a p sel _ hext]
            exact ih rest2.length (by omega) rest2 rfl _ a x hread
        · have hread2 : sgr_next_is_param 0 rest = false := by
            cases rest with
            | nil => simp [sgr_next_is_param, hext] at hread
            | cons sel rest2 => simpa only [sgr_next_is_param, if_neg hext] using hread
          rw [List.cons_append, sgr_list_cons_plain d a p _ hext,
            sgr_list_cons_plain d a p _ hext]
          exact ih rest.length (by omega) rest rfl 0 _ x hread2

/-- C1 (as stated) fails: in the token `38;5;0 m` the final `0` is the palette
index of the extended colour selector, not a reset, and the attribute stays
`0x0C` while the default is `0x07`: after `38;5` the next parameter is not
read as a parameter. -/
theorem reset_after_extended_colour_not_default :
    sgr_params (params_buffer [38, 5, 0]) = [38, 5] ++ [0] ∧
    fwrite_sgr_params CHAR_m (params_buffer [38, 5, 0]) 0x0C 0x07
      = some (0x0C, [ConsoleOp.set_attr 0x0C]) ∧
    (0x0C : Nat) ≠ 0x07 ∧
    sgr_next_is_param 0 [38, 5] = false := by
  decide

theorem sgr_next_is_param_plain : ∀ ps : List Int, (∀ p ∈ ps, p ≠ 38 ∧ p ≠ 48) →
    sgr_next_is_param 0 ps = true := by
  intro ps
  induction ps with
  | nil => intro _; rfl
  | cons p rest ih =>
    intro h
    have hp : ¬(p = 38 ∨ p = 48) := by
      have := h p (List.mem_cons_self p rest); tauto
    have hrest := ih (fun q hq => h q (List.mem_cons_of_mem p hq))
    cases rest with
    | nil => simp only [sgr_next_is_param, if_neg hp]
    | cons sel rest2 => simpa only [sgr_next_is_param, if_neg hp] using hrest

theorem sgr_params_length_le (params : List Int) : (sgr_params params).length ≤ 32 := by
  unfold sgr_params
  rw [List.length_take]
  exact le_trans (Nat.min_le_left _ _) (count_params_le_sizeof params 0 (by decide))

/-- C1 (amended): for every buffer whose counted parameters are `ps` followed
by `0` (so `ps` has at most 31 entries), if the final `0` is read as a
parameter, that is, is not consumed as a sub-parameter of a selector `38`/`48`
of `ps`, an `m` token returns and sets exactly the default attribute, whatever
the current attribute; this is so in particular when `ps` contains neither
`38` nor `48`. When the final `0` is consumed as a sub-parameter it has no
effect: the token gives what the token `ps` gives. -/
theorem reset_restores_default (params ps : List Int) (current defaults : Nat)
    (hps : sgr_params params = ps ++ [0]) :
    (sgr_next_is_param 0 ps = true →
      fwrite_sgr_params CHAR_m params current defaults
        = some (defaults, [ConsoleOp.set_attr defaults])) ∧
    ((∀ p ∈ ps, p ≠ 38 ∧ p ≠ 48) →
      fwrite_sgr_params CHAR_m params current defaults
        = some (defaults, [ConsoleOp.set_attr defaults])) ∧
    (sgr_next_is_param 0 ps = false → ∀ pps : List Int, sgr_params pps = ps →
      fwrite_sgr_params CHAR_m params current defaults
        = fwrite_sgr_params CHAR_m pps current defaults) ∧
    ps.length ≤ 31 := by
  have hmain : sgr_next_is_param 0 ps = true →
      fwrite_sgr_params CHAR_m params current defaults
        = some (defaults, [ConsoleOp.set_attr defaults]) := by
    intro hread
    rw [fwrite_sgr_params_m, hps, sgr_list_split defaults _ ps rfl 0 current [0] hread]
    simp [sgr_list, sgr_param_attr]
  refine ⟨hmain, fun hplain => hmain (sgr_next_is_param_plain ps hplain), ?_, ?_⟩
  · intro hread pps hpps
    rw [fwrite_sgr_params_m, fwrite_sgr_params_m, hps, hpps,
      sgr_list_consumed defaults _ ps rfl 0 current 0 hread]
  · have h := sgr_params_length_le params
    rw [hps, List.length_append, List.length_singleton] at h
    omega

theorem reset_restores_default_witness :
    fwrite_sgr_params CHAR_m (params_buffer [1, 48, 2, 10, 20, 30, 0]) 0x0C 0x07
      = some (0x07, [ConsoleOp.set_attr 0x07]) :=
  (reset_restores_default (params_buffer [1, 48, 2, 10, 20, 30, 0]) [1, 48, 2, 10, 20, 30]
    0x0C 0x07 (by decide)).1 (by decide)

theorem sgr_param_attr_fg (d attr : Nat) (p : Int) (h1 : 30 ≤ p) (h2 : p ≤ 37) :
    sgr_param_attr d attr p = (attr &&& 0xf8) ||| sgr_to_attr (p - 30) := by
  unfold sgr_param_attr
  have e1 : ¬ p = 0 := by omega
  have e2 : ¬ p = 1 := by omega
  have e3 : ¬ (p = 2 ∨ p = 22) := by omega
  have e4 : ¬ p = 4 := by omega
  have e5 : ¬ p = 24 := by omega
  have e6 : (p - 30) % 2 ^ 32 < 8 := by omega
  simp only [if_neg e1, if_neg e2, if_neg e3, if_neg e4, if_neg e5, if_pos e6]

theorem sgr_param_attr_bg (d attr : Nat) (p : Int) (h1 : 40 ≤ p) (h2 : p ≤ 47) :
    sgr_param_attr d attr p = (attr &&& 0x8f) ||| (sgr_to_attr (p - 40) <<< 4) := by
  unfold sgr_param_attr
  have e1 : ¬ p = 0 := by omega
  have e2 : ¬ p = 1 := by omega
  have e3 : ¬ (p = 2 ∨ p = 22) := by omega
  have e4 : ¬ p = 4 := by omega
  have e5 : ¬ p = 24 := by omega
  have e6 : ¬ (p - 30) % 2 ^ 32 < 8 := by omega
  have e7 : ¬ p = 39 := by omega
  have e8 : (p - 40) % 2 ^ 32 < 8 := by omega
  simp only [if_neg e1, if_neg e2, if_neg e3, if_neg e4, if_neg e5, if_neg e6, if_neg e7,
    if_pos e8]

theorem sgr_param_attr_39 (d attr : Nat) :
    sgr_param_attr d attr 39 = (attr &&& 0xf8) ||| (d &&& 0x07) := by
  unfold sgr_param_attr
  have e1 : ¬ ((39 : Int) = 0) := by decide
  have e2 : ¬ ((39 : Int) = 1) := by decide
  have e3 : ¬ ((39 : Int) = 2 ∨ (39 : Int) = 22) := by decide
  have e4 : ¬ ((39 : Int) = 4) := by decide
  have e5 : ¬ ((39 : Int) = 24) := by decide
  have e6 : ¬ ((39 : Int) - 30) % 2 ^ 32 < 8 := by decide
  simp only [if_neg e1, if_neg e2, if_neg e3, if_neg e4, if_neg e5, if_neg e6, if_true]

theorem and_and_disjoint (x a b : Nat) (h : a &&& b = 0) : (x &&& a) &&& b = 0 := by
  rw [Nat.and_assoc, h, Nat.and_zero]

theorem and_small_mask (p m : Nat) (hp : p < 8) (hm : m % 8 = 0) :
    p &&& m = 0 := by
  apply Nat.eq_of_testBit_eq
  intro k
  rw [Nat.testBit_and, Nat.zero_testBit]
  by_cases hk : 3 ≤ k
  · rw [testBit_false_of_lt p k 3 hp hk, Bool.false_and]
  · have hmk : m.testBit k = false := by
      have hk3 : k < 3 := by omega
      have h := Nat.testBit_mod_two_pow m 3 k
      rw [show (2 : Nat) ^ 3 = 8 from rfl, hm, Nat.zero_testBit] at h
      simpa [hk3] using h.symm
    rw [hmk, Bool.and_false]

/-- C2 (as stated) fails: from the bright attribute `0x0F` with default
`0x07`, the token `31;39 m` yields `0x0F`, whose foreground nibble `0xF` is not
the foreground nibble `0x7` of the default. -/
theorem default_fg_keeps_intensity_bit :
    sgr_params (params_buffer [31, 39]) = [31, 39] ∧
    fwrite_sgr_params CHAR_m (params_buffer [31, 39]) 0x0F 0x07
      = some (0x0F, [ConsoleOp.set_attr 0x0F]) ∧
    (0x0F : Nat) &&& 0x0F ≠ 0x07 &&& 0x0F := by
  decide

/-- C2 (amended): for every foreground colour parameter `p` in `30..37`, the
token `p;39 m` yields an attribute whose 3-bit foreground colour (bits 0-2)
is that of the default attribute, and whose foreground intensity bit (bit 3)
is that of the current attribute. -/
theorem fg_colour_then_default_fg (params : List Int) (p : Int) (current defaults : Nat)
    (h30 : 30 ≤ p) (h37 : p ≤ 37) (hps : sgr_params params = [p, 39]) :
    ∃ attr, fwrite_sgr_params CHAR_m params current defaults
        = some (attr, [ConsoleOp.set_attr attr]) ∧
      attr &&& 0x07 = defaults &&& 0x07 ∧ attr &&& 0x08 = current &&& 0x08 := by
  have hp : ¬(p = 38 ∨ p = 48) := by omega
  have h39 : ¬((39 : Int) = 38 ∨ (39 : Int) = 48) := by decide
  refine ⟨_, fwrite_sgr_params_m params current defaults, ?_, ?_⟩
  · rw [hps, sgr_list_cons_plain _ _ _ _ hp, sgr_list_cons_plain _ _ _ _ h39, sgr_list_nil,
      sgr_param_attr_39, and_or_right, and_and_disjoint _ 0xf8 0x07 (by decide), Nat.zero_or,
      Nat.and_assoc]
    rfl
  · rw [hps, sgr_list_cons_plain _ _ _ _ hp, sgr_list_cons_plain _ _ _ _ h39, sgr_list_nil,
      sgr_param_attr_39, sgr_param_attr_fg _ _ _ h30 h37, and_or_right,
      and_and_disjoint _ 0x07 0x08 (by decide), Nat.or_zero, and_or_right (current &&& 0xf8),
      and_or_right, Nat.and_assoc, Nat.and_assoc, Nat.and_assoc,
      and_small_mask _ (0xf8 &&& 0x08) (sgr_to_attr_lt _) (by decide), Nat.or_zero]
    rfl

theorem fg_colour_then_default_fg_witness :
    ∃ attr, fwrite_sgr_params CHAR_m (params_buffer [31, 39]) 0x0F 0x07
        = some (attr, [ConsoleOp.set_attr attr]) ∧
      attr &&& 0x07 = 0x07 &&& 0x07 ∧ attr &&& 0x08 = 0x0F &&& 0x08 :=
  fg_colour_then_default_fg (params_buffer [31, 39]) 31 0x0F 0x07 (by decide) (by decide)
    (by decide)

theorem frame_fg (a p k : Nat) (ha : a < 256) (hp : p < 8) (hk : 3 ≤ k) :
    ((a &&& 0xf8) ||| p).testBit k = a.testBit k := by
  rw [Nat.testBit_or, Nat.testBit_and, testBit_false_of_lt p k 3 hp hk, Bool.or_false]
  by_cases h8 : k < 8
  · have hbit : (0xf8 : Nat).testBit k = true := by interval_cases k <;> decide
    rw [hbit, Bool.and_true]
  · rw [testBit_false_of_lt a k 8 ha (by omega), Bool.false_and]

theorem frame_bg (a p k : Nat) (ha : a < 256) (hp : p < 8) (hk : k < 4 ∨ 7 ≤ k) :
    ((a &&& 0x8f) ||| (p <<< 4)).testBit k = a.testBit k := by
  have hshift : (p <<< 4).testBit k = false := by
    rw [Nat.testBit_shiftLeft]
    rcases hk with hk | hk
    · simp [hk]
    · rw [testBit_false_of_lt p (k - 4) 3 hp (by omega), Bool.and_false]
  rw [Nat.testBit_or, Nat.testBit_and, hshift, Bool.or_false]
  by_cases h8 : k < 8
  · have hbit : (0x8f : Nat).testBit k = true := by
      rcases hk with hk | hk
      · interval_cases k <;> decide
      · have h7 : k = 7 := by omega
        subst h7; decide
    rw [hbit, Bool.and_true]
  · rw [testBit_false_of_lt a k 8 ha (by omega), Bool.false_and]

/-- C5: for an 8-bit current attribute `a` and a colour index `c` in `0..7`,
the token `30+c m` yields `(a & 0xF8) | perm(c)` and the token `40+c m` yields
`(a & 0x8F) | (perm(c) << 4)`, where `perm = sgr_to_attr` is the table
`0,4,2,6,1,5,3,7`, which swaps bit 0 and bit 2 of `c`; every bit outside the
3-bit colour field written is unchanged; and `1;31 m` from current = default
= `0x07` yields `0x0C`. -/
theorem colour_params_set_colour_field (pf pb : List Int) (a d c : Nat)
    (ha : a < 256) (hc : c < 8)
    (hf : sgr_params pf = [30 + (c : Int)]) (hb : sgr_params pb = [40 + (c : Int)]) :
    fwrite_sgr_params CHAR_m pf a d
      = some ((a &&& 0xf8) ||| sgr_to_attr c,
          [ConsoleOp.set_attr ((a &&& 0xf8) ||| sgr_to_attr c)]) ∧
    fwrite_sgr_params CHAR_m pb a d
      = some ((a &&& 0x8f) ||| (sgr_to_attr c <<< 4),
          [ConsoleOp.set_attr ((a &&& 0x8f) ||| (sgr_to_attr c <<< 4))]) ∧
    sgr_to_attr c = [0, 4, 2, 6, 1, 5, 3, 7].getD c 0 ∧
    ((sgr_to_attr c).testBit 0 = c.testBit 2 ∧ (sgr_to_attr c).testBit 1 = c.testBit 1 ∧
      (sgr_to_attr c).testBit 2 = c.testBit 0 ∧ sgr_to_attr c < 8) ∧
    (∀ k, 3 ≤ k → ((a &&& 0xf8) ||| sgr_to_attr c).testBit k = a.testBit k) ∧
    (∀ k, k < 4 ∨ 7 ≤ k →
      ((a &&& 0x8f) ||| (sgr_to_attr c <<< 4)).testBit k = a.testBit k) ∧
    fwrite_sgr_params CHAR_m (params_buffer [1, 31]) 0x07 0x07
      = some (0x0C, [ConsoleOp.set_attr 0x0C]) := by
  have hpf : ¬(30 + (c : Int) = 38 ∨ 30 + (c : Int) = 48) := by omega
  have hpb : ¬(40 + (c : Int) = 38 ∨ 40 + (c : Int) = 48) := by omega
  have e30 : 30 + (c : Int) - 30 = (c : Int) := by omega
  have e40 : 40 + (c : Int) - 40 = (c : Int) := by omega
  refine ⟨?_, ?_, ?_, ?_, ?_, ?_, by decide⟩
  · rw [fwrite_sgr_params_m, hf, sgr_list_cons_plain _ _ _ _ hpf, sgr_list_nil,
      sgr_param_attr_fg _ _ _ (by omega) (by omega), e30]
  · rw [fwrite_sgr_params_m, hb, sgr_list_cons_plain _ _ _ _ hpb, sgr_list_nil,
      sgr_param_attr_bg _ _ _ (by omega) (by omega), e40]
  · interval_cases c <;> decide
  · interval_cases c <;> decide
  · intro k hk
    exact frame_fg a _ k ha (sgr_to_attr_lt _) hk
  · intro k hk
    exact frame_bg a _ k ha (sgr_to_attr_lt _) hk

theorem colour_params_set_colour_field_witness :
    fwrite_sgr_params CHAR_m (params_buffer [31]) 0x0F 0x07
      = some ((0x0F &&& 0xf8) ||| sgr_to_attr (1 : Nat),
          [ConsoleOp.set_attr ((0x0F &&& 0xf8) ||| sgr_to_attr (1 : Nat))]) :=
  (colour_params_set_colour_field (params_buffer [31]) (params_buffer [41]) 0x0F 0x07 1
    (by decide) (by decide) (by decide) (by decide)).1

/-- C6: for `s` in `{38, 48}`, the tokens `s;5;k;rest m` and `s;2;r;g;b;rest m`
give the same result as the token `rest m`: the selector and its
sub-parameters are consumed without attribute effect and the parameters after
them are still processed. In particular `38;5;196 m` returns the current
attribute unchanged. -/
theorem extended_colour_skipped (p5 p2 prest rest : List Int) (s k r g b : Int)
    (current defaults : Nat) (hs : s = 38 ∨ s = 48)
    (h5 : sgr_params p5 = [s, 5, k] ++ rest) (h2 : sgr_params p2 = [s, 2, r, g, b] ++ rest)
    (hrest : sgr_params prest = rest) :
    fwrite_sgr_params CHAR_m p5 current defaults
      = fwrite_sgr_params CHAR_m prest current defaults ∧
    fwrite_sgr_params CHAR_m p2 current defaults
      = fwrite_sgr_params CHAR_m prest current defaults ∧
    fwrite_sgr_params CHAR_m (params_buffer [38, 5, 196]) current defaults
      = some (current, [ConsoleOp.set_attr current]) := by
  refine ⟨?_, ?_, ?_⟩
  · rw [fwrite_sgr_params_m, fwrite_sgr_params_m, h5, hrest]
    simp [sgr_list_cons_ext _ _ _ _ _ hs]
  · rw [fwrite_sgr_params_m, fwrite_sgr_params_m, h2, hrest]
    simp [sgr_list_cons_ext _ _ _ _ _ hs]
  · rw [fwrite_sgr_params_m, show sgr_params (params_buffer [38, 5, 196]) = [38, 5, 196] by decide,
      sgr_list_cons_ext _ _ _ _ _ (Or.inl rfl)]
    simp [sgr_list_nil]

theorem extended_colour_skipped_witness :
    fwrite_sgr_params CHAR_m (params_buffer [38, 5, 196, 1]) 0x07 0x07
      = fwrite_sgr_params CHAR_m (params_buffer [1]) 0x07 0x07 :=
  (extended_colour_skipped (params_buffer [38, 5, 196, 1]) (params_buffer [38, 2, 1, 2, 3, 1])
    (params_buffer [1]) [1] 38 196 1 2 3 0x07 0x07 (Or.inl rfl) (by decide) (by decide)
    (by decide)).1

/-! ## Theorems: the key decoder -/

theorem or_enhanced_and_ne_zero (f : Nat) : (f ||| ENHANCED_KEY) &&& ENHANCED_KEY ≠ 0 := by
  intro h
  have hbit := congrArg (fun x => Nat.testBit x 8) h
  simp only [Nat.testBit_and, Nat.testBit_or, Nat.zero_testBit] at hbit
  have h8 : ENHANCED_KEY.testBit 8 = true := by decide
  rw [h8] at hbit
  simp at hbit

theorem or_enhanced_and_shift (f : Nat) :
    (f ||| ENHANCED_KEY) &&& SHIFT_PRESSED = f &&& SHIFT_PRESSED := by
  rw [and_or_right, show ENHANCED_KEY &&& SHIFT_PRESSED = 0 by decide, Nat.or_zero]

theorem or_enhanced_and_ctrl (f : Nat) :
    (f ||| ENHANCED_KEY) &&& CTRL_PRESSED = f &&& CTRL_PRESSED := by
  rw [and_or_right, show ENHANCED_KEY &&& CTRL_PRESSED = 0 by decide, Nat.or_zero]

theorem mod_column_or_enhanced (f : Nat) : mod_column (f ||| ENHANCED_KEY) = mod_column f := by
  unfold mod_column
  rw [or_enhanced_and_shift, or_enhanced_and_ctrl]

theorem mod_column_lt (f : Nat) : mod_column f < 4 := by
  unfold mod_column
  split_ifs <;> decide

/-- The loop over `mod_map` returns the entry of the first row whose column 0
is the scan code, and the old `carry` when there is none. -/
theorem mod_map_carry_eq (key_sc key_flags : Nat) : ∀ (rows : List (List Nat)) (carry : Nat),
    mod_map_carry key_sc key_flags rows carry
      = match rows.find? (fun row => decide (row.getD 0 0 = key_sc)) with
        | some row => row.getD (mod_column key_flags) 0
        | none => carry := by
  intro rows
  induction rows with
  | nil => intro carry; rfl
  | cons row rest ih =>
    intro carry
    by_cases h : row.getD 0 0 = key_sc
    · have hf : (row :: rest).find? (fun row => decide (row.getD 0 0 = key_sc)) = some row := by
        rw [List.find?_cons]
        simp only [h, decide_True]
      rw [mod_map_carry, if_neg (not_not.mpr h), hf]
    · have hf : (row :: rest).find? (fun row => decide (row.getD 0 0 = key_sc))
          = rest.find? (fun row => decide (row.getD 0 0 = key_sc)) := by
        rw [List.find?_cons]
        simp only [h, decide_False]
      rw [mod_map_carry, if_pos h, hf]
      exact ih carry

theorem mod_map_carry_or_enhanced (key_sc f : Nat) (rows : List (List Nat)) (carry : Nat) :
    mod_map_carry key_sc (f ||| ENHANCED_KEY) rows carry = mod_map_carry key_sc f rows carry := by
  rw [mod_map_carry_eq, mod_map_carry_eq, mod_column_or_enhanced]

/-- A scan code of column 0: the loop stores the entry of its row in the
column of the modifiers, and that entry is neither `0` nor the tab character. -/
theorem mod_map_carry_found (key_sc key_flags carry : Nat)
    (hsc : key_sc ∈ mod_map.map (fun row => row.getD 0 0)) :
    ∃ row ∈ mod_map, row.getD 0 0 = key_sc ∧
      mod_map_carry key_sc key_flags mod_map carry = row.getD (mod_column key_flags) 0 ∧
      mod_map_carry key_sc key_flags mod_map carry ≠ 0 ∧
      mod_map_carry key_sc key_flags mod_map carry ≠ 9 := by
  have key : ∀ sc ∈ mod_map.map (fun row => row.getD 0 0), ∀ j < 4, ∃ row ∈ mod_map,
      row.getD 0 0 = sc ∧ mod_map.find? (fun row => decide (row.getD 0 0 = sc)) = some row ∧
      row.getD j 0 ≠ 0 ∧ row.getD j 0 ≠ 9 := by decide
  obtain ⟨row, hrow, h0, hf, hne0, hne9⟩ := key key_sc hsc _ (mod_column_lt key_flags)
  refine ⟨row, hrow, h0, ?_, ?_, ?_⟩ <;> rw [mod_map_carry_eq, hf]
  · exact hne0
  · exact hne9

/-- A scan code outside column 0: the loop leaves `carry` as it was. -/
theorem mod_map_carry_not_found (key_sc key_flags carry : Nat)
    (hsc : key_sc ∉ mod_map.map (fun row => row.getD 0 0)) :
    mod_map_carry key_sc key_flags mod_map carry = carry := by
  rw [mod_map_carry_eq]
  have hnone : mod_map.find? (fun row => decide (row.getD 0 0 = key_sc)) = none := by
    rw [List.find?_eq_none]
    intro row hrow
    simp only [decide_eq_true_eq]
    intro heq
    exact hsc (List.mem_map.mpr ⟨row, hrow, heq⟩)
  rw [hnone]

theorem resize_check_unchanged (g i : Nat) (hg : g ≠ 0) (hi : i = g) :
    resize_check g i = none := by
  unfold resize_check
  rw [if_neg]
  intro h
  rcases h with h | h
  · exact hg h
  · exact h hi.symm

/-- A pass that starts with no pending code and an unchanged geometry and
reads a key-down record decodes that key (after the AltGr gate). -/
theorem read_pass_key_down (setting : String → Int) (st : Statics)
    (csbi csbi2 : CONSOLE_SCREEN_BUFFER_INFO) (screen : List CONSOLE_SCREEN_BUFFER_INFO)
    (input : List INPUT_RECORD) (key : KEY_EVENT_RECORD)
    (hcarry : st.carry = 0) (hg : st.g_last_buffer_size ≠ 0)
    (hsame : buffer_size csbi = st.g_last_buffer_size) (hdown : key.bKeyDown = true) :
    read_pass setting st ⟨csbi :: csbi2 :: screen, ⟨KEY_EVENT, key⟩ :: input⟩
      = (decode_key 0
          (if (decide (key.dwControlKeyState &&& LEFT_ALT_PRESSED ≠ 0)
                && decide (key.dwControlKeyState
                    &&& (LEFT_CTRL_PRESSED ||| RIGHT_CTRL_PRESSED) ≠ 0)
                && decide (key.UnicodeChar ≠ 0)) = true
              ∧ setting "use_altgr_substitute" = 0
            then 0 else key.UnicodeChar)
          key.wVirtualKeyCode key.wVirtualScanCode key.dwControlKeyState).toPass
          st.g_last_buffer_size ⟨screen, input⟩ := by
  have hkw : ¬ (KEY_EVENT = WINDOW_BUFFER_SIZE_EVENT) := by decide
  have hdown2 : ¬ (key.bKeyDown = false) := by rw [hdown]; decide
  unfold read_pass
  simp only [hcarry, ne_eq, not_true_eq_false, if_false,
    resize_check_unchanged _ _ hg hsame, if_neg hkw, if_neg hdown2]

/-- A pass that starts with a pending code returns it and clears `carry`,
without touching the console trace. -/
theorem read_pass_carry (setting : String → Int) (c g : Nat) (con : ConsoleIn)
    (hc : c ≠ 0) (h9 : c ≠ 9) :
    read_pass setting ⟨c, g⟩ con = Pass.done c ⟨0, g⟩ con 0 := by
  have henh : ¬ (ENHANCED_KEY &&& ENHANCED_KEY = 0 ∧ c > 0x7f) := by
    intro h; exact absurd h.1 (by decide)
  have htab : ¬ (c = 9 ∧ (0 : Nat) = 0 ∧ ENHANCED_KEY &&& SHIFT_PRESSED ≠ 0) := by
    intro h; exact h9 h.1
  have hdec : decode_key 0 c 0 0 ENHANCED_KEY = Flow.ret c 0 := by
    unfold decode_key
    rw [if_neg hc, if_neg henh]
    unfold shift_tab
    rw [if_neg htab]
  unfold read_pass
  simp only [ne_eq, hc, not_false_eq_true, if_true, hdec, Flow.toPass]

theorem decode_key_enhanced (carry key_vk key_sc key_flags : Nat)
    (henh : key_flags &&& ENHANCED_KEY ≠ 0 ∨ key_vk ∈ enhanced_vks) :
    decode_key carry 0 key_vk key_sc key_flags
      = if mod_map_carry key_sc key_flags mod_map carry = 0
        then Flow.goto_loop (mod_map_carry key_sc key_flags mod_map carry)
        else Flow.ret 0xe0 (mod_map_carry key_sc key_flags mod_map carry) := by
  have htab : ∀ c f, shift_tab c 0xe0 f = Flow.ret 0xe0 c := by
    intro c f
    unfold shift_tab
    rw [if_neg]
    intro h; exact absurd h.1 (by decide)
  unfold decode_key
  simp only [if_true, htab]
  by_cases hvk : key_vk ∈ enhanced_vks
  · simp only [if_pos hvk, if_pos (or_enhanced_and_ne_zero key_flags),
      mod_map_carry_or_enhanced]
  · have hflag : key_flags &&& ENHANCED_KEY ≠ 0 := by
      rcases henh with h | h
      · exact h
      · exact absurd h hvk
    simp only [if_neg hvk, if_pos hflag]

theorem mod_column_eq (f : Nat) :
    mod_column f = (if f &&& SHIFT_PRESSED ≠ 0 then 1 else 0)
      + 2 * (if f &&& (LEFT_CTRL_PRESSED ||| RIGHT_CTRL_PRESSED) ≠ 0 then 1 else 0) := by
  unfold mod_column CTRL_PRESSED
  split_ifs <;> rfl

theorem mod_column_congr (f f2 : Nat)
    (hshift : f2 &&& SHIFT_PRESSED ≠ 0 ↔ f &&& SHIFT_PRESSED ≠ 0)
    (hctrl : f2 &&& (LEFT_CTRL_PRESSED ||| RIGHT_CTRL_PRESSED) ≠ 0
      ↔ f &&& (LEFT_CTRL_PRESSED ||| RIGHT_CTRL_PRESSED) ≠ 0) :
    mod_column f2 = mod_column f := by
  rw [mod_column_eq, mod_column_eq]
  by_cases h1 : f &&& SHIFT_PRESSED ≠ 0 <;>
    by_cases h2 : f &&& (LEFT_CTRL_PRESSED ||| RIGHT_CTRL_PRESSED) ≠ 0 <;>
    simp only [h1, h2, hshift, hctrl, if_true, if_false]

/-- With no pending code and no record in the input queue, no pass of
`read()` returns: the call yields no code. -/
theorem read_no_input (setting : String → Int) : ∀ (fuel g : Nat)
    (screen : List CONSOLE_SCREEN_BUFFER_INFO) (resizes : Nat),
    read setting fuel ⟨0, g⟩ ⟨screen, []⟩ resizes = none := by
  intro fuel
  induction fuel with
  | zero => intro g screen resizes; rfl
  | succ fuel ih =>
    intro g screen resizes
    cases screen with
    | nil => simp [read, read_pass]
    | cons csbi rest =>
      cases hrc : resize_check g (buffer_size csbi) with
      | none => simp [read, read_pass, hrc]
      | some p =>
        obtain ⟨r, g2⟩ := p
        simp only [read, read_pass, hrc, ne_eq, not_true_eq_false, if_false]
        exact ih g2 rest _

/-- C3: a key-down event with no character, a scan code of column 0 of
`mod_map` and the enhanced classification (flag set, or one of the virtual
keys of `enhanced_vks`), read with no pending code and an unchanged geometry:
`read()` returns the prefix marker `0xE0`; the next `read()` returns the
payload `mod_map[row][shift + 2*ctrl]` and reads nothing from the console; the
payload is the same for every event with the same scan code and the same
shift and ctrl bits; after the second call `carry` is `0`, and a third call
with no new event returns no code. -/
theorem enhanced_key_marker_then_payload (setting : String → Int) (fuel resizes : Nat)
    (st : Statics) (csbi csbi2 : CONSOLE_SCREEN_BUFFER_INFO)
    (screen : List CONSOLE_SCREEN_BUFFER_INFO) (input : List INPUT_RECORD)
    (key : KEY_EVENT_RECORD)
    (hcarry : st.carry = 0) (hg : st.g_last_buffer_size ≠ 0)
    (hsame : buffer_size csbi = st.g_last_buffer_size)
    (hdown : key.bKeyDown = true) (hchar : key.UnicodeChar = 0)
    (hsc : key.wVirtualScanCode ∈ mod_map.map (fun row => row.getD 0 0))
    (henh : key.dwControlKeyState &&& ENHANCED_KEY ≠ 0
      ∨ key.wVirtualKeyCode ∈ enhanced_vks) :
    ∃ row ∈ mod_map, ∃ payload : Nat,
      row.getD 0 0 = key.wVirtualScanCode ∧
      payload = row.getD
        ((if key.dwControlKeyState &&& SHIFT_PRESSED ≠ 0 then 1 else 0)
          + 2 * (if key.dwControlKeyState
              &&& (LEFT_CTRL_PRESSED ||| RIGHT_CTRL_PRESSED) ≠ 0 then 1 else 0)) 0 ∧
      read setting (fuel + 1) st ⟨csbi :: csbi2 :: screen, ⟨KEY_EVENT, key⟩ :: input⟩ resizes
        = some ⟨0xe0, ⟨payload, st.g_last_buffer_size⟩, ⟨screen, input⟩, resizes⟩ ∧
      (∀ (fuel2 resizes2 : Nat) (con : ConsoleIn),
        read setting (fuel2 + 1) ⟨payload, st.g_last_buffer_size⟩ con resizes2
          = some ⟨payload, ⟨0, st.g_last_buffer_size⟩, con, resizes2⟩) ∧
      (∀ key2 : KEY_EVENT_RECORD, key2.wVirtualScanCode = key.wVirtualScanCode →
        (key2.dwControlKeyState &&& SHIFT_PRESSED ≠ 0
          ↔ key.dwControlKeyState &&& SHIFT_PRESSED ≠ 0) →
        (key2.dwControlKeyState &&& (LEFT_CTRL_PRESSED ||| RIGHT_CTRL_PRESSED) ≠ 0
          ↔ key.dwControlKeyState &&& (LEFT_CTRL_PRESSED ||| RIGHT_CTRL_PRESSED) ≠ 0) →
        mod_map_carry key2.wVirtualScanCode key2.dwControlKeyState mod_map 0 = payload) ∧
      (∀ (fuel3 resizes3 : Nat) (screen3 : List CONSOLE_SCREEN_BUFFER_INFO),
        read setting fuel3 ⟨0, st.g_last_buffer_size⟩ ⟨screen3, []⟩ resizes3 = none) := by
  obtain ⟨row, hrow, h0, hval, hne0, hne9⟩ :=
    mod_map_carry_found key.wVirtualScanCode key.dwControlKeyState 0 hsc
  refine ⟨row, hrow, mod_map_carry key.wVirtualScanCode key.dwControlKeyState mod_map 0, h0,
    ?_, ?_, ?_, ?_, ?_⟩
  · rw [hval, mod_column_eq]
  · have haltgr : ¬ ((decide (key.dwControlKeyState &&& LEFT_ALT_PRESSED ≠ 0)
          && decide (key.dwControlKeyState
              &&& (LEFT_CTRL_PRESSED ||| RIGHT_CTRL_PRESSED) ≠ 0)
          && decide (key.UnicodeChar ≠ 0)) = true
        ∧ setting "use_altgr_substitute" = 0) := by
      simp [hchar]
    rw [read, read_pass_key_down setting st csbi csbi2 screen input key hcarry hg hsame hdown,
      if_neg haltgr, hchar, decode_key_enhanced 0 _ _ _ henh, if_neg hne0]
    simp only [Flow.toPass, Nat.add_zero]
  · intro fuel2 resizes2 con
    rw [read, read_pass_carry setting _ _ con hne0 hne9]
    simp only [Nat.add_zero]
  · intro key2 hsc2 hshift hctrl
    rw [mod_map_carry_eq, mod_map_carry_eq, hsc2, mod_column_congr _ _ hshift hctrl]
  · intro fuel3 resizes3 screen3
    exact read_no_input setting fuel3 _ screen3 resizes3

theorem enhanced_key_marker_then_payload_witness :
    ∃ row ∈ mod_map, ∃ payload : Nat,
      row.getD 0 0 = 0x47 ∧
      payload = row.getD
        ((if (0x110 : Nat) &&& SHIFT_PRESSED ≠ 0 then 1 else 0)
          + 2 * (if (0x110 : Nat)
              &&& (LEFT_CTRL_PRESSED ||| RIGHT_CTRL_PRESSED) ≠ 0 then 1 else 0)) 0 ∧
      read settings_off (0 + 1) statics_80x25
          ⟨screen_80x25 :: screen_80x25 :: [], ⟨KEY_EVENT, ⟨true, 0, VK_HOME, 0x47, 0x110⟩⟩ :: []⟩ 0
        = some ⟨0xe0, ⟨payload, statics_80x25.g_last_buffer_size⟩, ⟨[], []⟩, 0⟩ ∧
      (∀ (fuel2 resizes2 : Nat) (con : ConsoleIn),
        read settings_off (fuel2 + 1) ⟨payload, statics_80x25.g_last_buffer_size⟩ con resizes2
          = some ⟨payload, ⟨0, statics_80x25.g_last_buffer_size⟩, con, resizes2⟩) ∧
      (∀ key2 : KEY_EVENT_RECORD, key2.wVirtualScanCode = 0x47 →
        (key2.dwControlKeyState &&& SHIFT_PRESSED ≠ 0
          ↔ (0x110 : Nat) &&& SHIFT_PRESSED ≠ 0) →
        (key2.dwControlKeyState &&& (LEFT_CTRL_PRESSED ||| RIGHT_CTRL_PRESSED) ≠ 0
          ↔ (0x110 : Nat) &&& (LEFT_CTRL_PRESSED ||| RIGHT_CTRL_PRESSED) ≠ 0) →
        mod_map_carry key2.wVirtualScanCode key2.dwControlKeyState mod_map 0 = payload) ∧
      (∀ (fuel3 resizes3 : Nat) (screen3 : List CONSOLE_SCREEN_BUFFER_INFO),
        read settings_off fuel3 ⟨0, statics_80x25.g_last_buffer_size⟩ ⟨screen3, []⟩ resizes3
          = none) :=
  enhanced_key_marker_then_payload settings_off 0 0 statics_80x25 screen_80x25 screen_80x25
    [] [] ⟨true, 0, VK_HOME, 0x47, 0x110⟩ rfl (by decide) rfl rfl rfl (by decide)
    (Or.inl (by decide))

/-- C4: a key-down event with no character, the enhanced-key flag set and a
scan code outside column 0 of `mod_map`, read with no pending code and an
unchanged geometry: the pass ends in `goto loop` with `carry` still `0`, and
`read()` returns whatever it returns on the rest of the console trace. -/
theorem unknown_enhanced_scan_code_discarded (setting : String → Int) (fuel resizes : Nat)
    (st : Statics) (csbi csbi2 : CONSOLE_SCREEN_BUFFER_INFO)
    (screen : List CONSOLE_SCREEN_BUFFER_INFO) (input : List INPUT_RECORD)
    (key : KEY_EVENT_RECORD)
    (hcarry : st.carry = 0) (hg : st.g_last_buffer_size ≠ 0)
    (hsame : buffer_size csbi = st.g_last_buffer_size)
    (hdown : key.bKeyDown = true) (hchar : key.UnicodeChar = 0)
    (hflag : key.dwControlKeyState &&& ENHANCED_KEY ≠ 0)
    (hsc : key.wVirtualScanCode ∉ mod_map.map (fun row => row.getD 0 0)) :
    read_pass setting st ⟨csbi :: csbi2 :: screen, ⟨KEY_EVENT, key⟩ :: input⟩
      = Pass.again ⟨0, st.g_last_buffer_size⟩ ⟨screen, input⟩ 0 ∧
    read setting (fuel + 1) st ⟨csbi :: csbi2 :: screen, ⟨KEY_EVENT, key⟩ :: input⟩ resizes
      = read setting fuel ⟨0, st.g_last_buffer_size⟩ ⟨screen, input⟩ resizes := by
  have haltgr : ¬ ((decide (key.dwControlKeyState &&& LEFT_ALT_PRESSED ≠ 0)
        && decide (key.dwControlKeyState
            &&& (LEFT_CTRL_PRESSED ||| RIGHT_CTRL_PRESSED) ≠ 0)
        && decide (key.UnicodeChar ≠ 0)) = true
      ∧ setting "use_altgr_substitute" = 0) := by
    simp [hchar]
  have hpass : read_pass setting st ⟨csbi :: csbi2 :: screen, ⟨KEY_EVENT, key⟩ :: input⟩
      = Pass.again ⟨0, st.g_last_buffer_size⟩ ⟨screen, input⟩ 0 := by
    rw [read_pass_key_down setting st csbi csbi2 screen input key hcarry hg hsame hdown,
      if_neg haltgr, hchar, decode_key_enhanced 0 _ _ _ (Or.inl hflag),
      mod_map_carry_not_found _ _ _ hsc, if_pos rfl]
    rfl
  refine ⟨hpass, ?_⟩
  rw [read, hpass]
  simp only [Nat.add_zero]

theorem unknown_enhanced_scan_code_discarded_witness :
    read_pass settings_off statics_80x25
        ⟨screen_80x25 :: screen_80x25 :: [], ⟨KEY_EVENT, ⟨true, 0, 0x5B, 0x5B, 0x100⟩⟩ :: []⟩
      = Pass.again ⟨0, statics_80x25.g_last_buffer_size⟩ ⟨[], []⟩ 0 ∧
    read settings_off (3 + 1) statics_80x25
        ⟨screen_80x25 :: screen_80x25 :: [], ⟨KEY_EVENT, ⟨true, 0, 0x5B, 0x5B, 0x100⟩⟩ :: []⟩ 0
      = read settings_off 3 ⟨0, statics_80x25.g_last_buffer_size⟩ ⟨[], []⟩ 0 :=
  unknown_enhanced_scan_code_discarded settings_off 3 0 statics_80x25 screen_80x25 screen_80x25
    [] [] ⟨true, 0, 0x5B, 0x5B, 0x100⟩ rfl (by decide) rfl rfl rfl (by decide) (by decide)

theorem CONTAINS_iff (key_vk l r : Nat) (hvk : key_vk < 65536) (hl : l ≤ r) (hr : r < 65536) :
    CONTAINS key_vk l r = true ↔ l ≤ key_vk ∧ key_vk ≤ r := by
  unfold CONTAINS
  rw [decide_eq_true_eq]
  norm_num
  omega

theorem shift_tab_plain (k key_flags : Nat) (h : ¬(k = 9 ∧ key_flags &&& SHIFT_PRESSED ≠ 0)) :
    shift_tab 0 k key_flags = Flow.ret k 0 := by
  unfold shift_tab
  rw [if_neg]
  intro hc
  exact h ⟨hc.1, hc.2.2⟩

theorem shift_tab_tab (key_flags : Nat) (h : key_flags &&& SHIFT_PRESSED ≠ 0) :
    shift_tab 0 9 key_flags = Flow.ret 0xe0 90 := by
  unfold shift_tab
  rw [if_pos ⟨rfl, rfl, h⟩]

theorem decode_key_ctrl (key_vk key_sc key_flags : Nat)
    (hflag : key_flags &&& ENHANCED_KEY = 0) (hvks : key_vk ∉ enhanced_vks)
    (hctrl : key_flags &&& CTRL_PRESSED ≠ 0) :
    decode_key 0 0 key_vk key_sc key_flags
      = if CONTAINS key_vk 65 90 then shift_tab 0 (key_vk - 64) key_flags
        else if CONTAINS key_vk 0xdb 0xdd then shift_tab 0 (key_vk - 0xc0) key_flags
        else if key_vk = 0x32 then shift_tab 0 0 key_flags
        else if key_vk = 0x36 then shift_tab 0 0x1e key_flags
        else if key_vk = 0xbd then shift_tab 0 0x1f key_flags
        else Flow.goto_loop 0 := by
  unfold decode_key
  simp only [if_true, if_neg hvks, hflag, ne_eq, not_true_eq_false, if_false, if_neg hctrl]

/-- C7 (as stated) fails: Ctrl+Shift+I with no character (virtual key `0x49`)
has the control code 9, which the shift-tab special case rewrites: `read()`
returns the prefix `0xE0` (with `Z` carried), not `0x49 - 0x40`, and `0xE0` is
not in `0..31`. -/
theorem ctrl_shift_i_returns_marker :
    read settings_off 1 statics_80x25
        ⟨[screen_80x25, screen_80x25],
          [key_down 0 0x49 0x17 (LEFT_CTRL_PRESSED ||| SHIFT_PRESSED)]⟩ 0
      = some ⟨0xe0, ⟨90, statics_80x25.g_last_buffer_size⟩, ⟨[], []⟩, 0⟩ ∧
    (0xe0 : Nat) ≠ 0x49 - 0x40 ∧ ¬ ((0xe0 : Nat) ≤ 31) := by
  decide

/-- C7 (amended): a key-down event with no character, a Ctrl bit set and not
classified as enhanced, read with no pending code and an unchanged geometry.
`read()` returns the control code of the virtual key (`A`..`Z` give
`vk - 0x40`, `0xDB..0xDD` give 27..29, `0x36` gives 30, `0xBD` gives 31, `0x32`
gives 0) and discards any other virtual key; the one exception is the control
code 9 (virtual key `I`) with Shift held, which the shift-tab special case
turns into the prefix `0xE0` with `Z` carried. Every code returned is in
`0..31` or is that prefix. -/
theorem ctrl_key_control_code (setting : String → Int) (fuel resizes : Nat)
    (st : Statics) (csbi csbi2 : CONSOLE_SCREEN_BUFFER_INFO)
    (screen : List CONSOLE_SCREEN_BUFFER_INFO) (input : List INPUT_RECORD)
    (key : KEY_EVENT_RECORD)
    (hcarry : st.carry = 0) (hg : st.g_last_buffer_size ≠ 0)
    (hsame : buffer_size csbi = st.g_last_buffer_size)
    (hdown : key.bKeyDown = true) (hchar : key.UnicodeChar = 0)
    (hvk : key.wVirtualKeyCode < 65536)
    (hctrl : key.dwControlKeyState &&& CTRL_PRESSED ≠ 0)
    (hflag : key.dwControlKeyState &&& ENHANCED_KEY = 0)
    (hvks : key.wVirtualKeyCode ∉ enhanced_vks) :
    (65 ≤ key.wVirtualKeyCode ∧ key.wVirtualKeyCode ≤ 90 →
      ¬(key.wVirtualKeyCode = 73 ∧ key.dwControlKeyState &&& SHIFT_PRESSED ≠ 0) →
      read setting (fuel + 1) st ⟨csbi :: csbi2 :: screen, ⟨KEY_EVENT, key⟩ :: input⟩ resizes
        = some ⟨key.wVirtualKeyCode - 0x40, ⟨0, st.g_last_buffer_size⟩, ⟨screen, input⟩,
            resizes⟩) ∧
    (key.wVirtualKeyCode = 73 → key.dwControlKeyState &&& SHIFT_PRESSED ≠ 0 →
      read setting (fuel + 1) st ⟨csbi :: csbi2 :: screen, ⟨KEY_EVENT, key⟩ :: input⟩ resizes
        = some ⟨0xe0, ⟨90, st.g_last_buffer_size⟩, ⟨screen, input⟩, resizes⟩) ∧
    (0xdb ≤ key.wVirtualKeyCode ∧ key.wVirtualKeyCode ≤ 0xdd →
      read setting (fuel + 1) st ⟨csbi :: csbi2 :: screen, ⟨KEY_EVENT, key⟩ :: input⟩ resizes
        = some ⟨key.wVirtualKeyCode - 0xc0, ⟨0, st.g_last_buffer_size⟩, ⟨screen, input⟩,
            resizes⟩) ∧
    (key.wVirtualKeyCode = 0x36 →
      read setting (fuel + 1) st ⟨csbi :: csbi2 :: screen, ⟨KEY_EVENT, key⟩ :: input⟩ resizes
        = some ⟨30, ⟨0, st.g_last_buffer_size⟩, ⟨screen, input⟩, resizes⟩) ∧
    (key.wVirtualKeyCode = 0xbd →
      read setting (fuel + 1) st ⟨csbi :: csbi2 :: screen, ⟨KEY_EVENT, key⟩ :: input⟩ resizes
        = some ⟨31, ⟨0, st.g_last_buffer_size⟩, ⟨screen, input⟩, resizes⟩) ∧
    (key.wVirtualKeyCode = 0x32 →
      read setting (fuel + 1) st ⟨csbi :: csbi2 :: screen, ⟨KEY_EVENT, key⟩ :: input⟩ resizes
        = some ⟨0, ⟨0, st.g_last_buffer_size⟩, ⟨screen, input⟩, resizes⟩) ∧
    (¬(65 ≤ key.wVirtualKeyCode ∧ key.wVirtualKeyCode ≤ 90) →
      ¬(0xdb ≤ key.wVirtualKeyCode ∧ key.wVirtualKeyCode ≤ 0xdd) →
      key.wVirtualKeyCode ≠ 0x36 → key.wVirtualKeyCode ≠ 0xbd → key.wVirtualKeyCode ≠ 0x32 →
      read setting (fuel + 1) st ⟨csbi :: csbi2 :: screen, ⟨KEY_EVENT, key⟩ :: input⟩ resizes
        = read setting fuel ⟨0, st.g_last_buffer_size⟩ ⟨screen, input⟩ resizes) ∧
    (∀ (k : Nat) (st2 : Statics) (con2 : ConsoleIn) (r : Nat),
      read_pass setting st ⟨csbi :: csbi2 :: screen, ⟨KEY_EVENT, key⟩ :: input⟩
        = Pass.done k st2 con2 r →
      k ≤ 31 ∨ (k = 0xe0 ∧ key.wVirtualKeyCode = 73
        ∧ key.dwControlKeyState &&& SHIFT_PRESSED ≠ 0)) := by
  have haltgr : ¬ ((decide (key.dwControlKeyState &&& LEFT_ALT_PRESSED ≠ 0)
        && decide (key.dwControlKeyState
            &&& (LEFT_CTRL_PRESSED ||| RIGHT_CTRL_PRESSED) ≠ 0)
        && decide (key.UnicodeChar ≠ 0)) = true
      ∧ setting "use_altgr_substitute" = 0) := by
    simp [hchar]
  have hAZ := CONTAINS_iff key.wVirtualKeyCode 65 90 hvk (by decide) (by decide)
  have hP := CONTAINS_iff key.wVirtualKeyCode 0xdb 0xdd hvk (by decide) (by decide)
  have hpass : read_pass setting st ⟨csbi :: csbi2 :: screen, ⟨KEY_EVENT, key⟩ :: input⟩
      = (if CONTAINS key.wVirtualKeyCode 65 90
          then shift_tab 0 (key.wVirtualKeyCode - 64) key.dwControlKeyState
        else if CONTAINS key.wVirtualKeyCode 0xdb 0xdd
          then shift_tab 0 (key.wVirtualKeyCode - 0xc0) key.dwControlKeyState
        else if key.wVirtualKeyCode = 0x32 then shift_tab 0 0 key.dwControlKeyState
        else if key.wVirtualKeyCode = 0x36 then shift_tab 0 0x1e key.dwControlKeyState
        else if key.wVirtualKeyCode = 0xbd then shift_tab 0 0x1f key.dwControlKeyState
        else Flow.goto_loop 0).toPass st.g_last_buffer_size ⟨screen, input⟩ := by
    rw [read_pass_key_down setting st csbi csbi2 screen input key hcarry hg hsame hdown,
      if_neg haltgr, hchar, decode_key_ctrl _ _ _ hflag hvks hctrl]
  refine ⟨?_, ?_, ?_, ?_, ?_, ?_, ?_, ?_⟩
  · intro hr hni
    have hne : ¬(key.wVirtualKeyCode - 64 = 9 ∧ key.dwControlKeyState &&& SHIFT_PRESSED ≠ 0) := by
      intro h; exact hni ⟨by omega, h.2⟩
    rw [read, hpass, if_pos (hAZ.mpr hr), shift_tab_plain _ _ hne]
    simp only [Flow.toPass, Nat.add_zero]
  · intro h73 hshift
    have hr : 65 ≤ key.wVirtualKeyCode ∧ key.wVirtualKeyCode ≤ 90 := by omega
    rw [read, hpass, if_pos (hAZ.mpr hr), h73, shift_tab_tab _ hshift]
    simp only [Flow.toPass, Nat.add_zero]
  · intro hr
    have hnot : ¬ CONTAINS key.wVirtualKeyCode 65 90 = true := by rw [hAZ]; omega
    have hne : ¬(key.wVirtualKeyCode - 0xc0 = 9
        ∧ key.dwControlKeyState &&& SHIFT_PRESSED ≠ 0) := by
      intro h; omega
    rw [read, hpass, if_neg hnot, if_pos (hP.mpr hr), shift_tab_plain _ _ hne]
    simp only [Flow.toPass, Nat.add_zero]
  · intro h
    have hnot : ¬ CONTAINS key.wVirtualKeyCode 65 90 = true := by rw [hAZ]; omega
    have hnot2 : ¬ CONTAINS key.wVirtualKeyCode 0xdb 0xdd = true := by rw [hP]; omega
    rw [read, hpass, if_neg hnot, if_neg hnot2, if_neg (by omega), if_pos h,
      shift_tab_plain _ _ (by intro h9; exact absurd h9.1 (by decide))]
    simp only [Flow.toPass, Nat.add_zero]
  · intro h
    have hnot : ¬ CONTAINS key.wVirtualKeyCode 65 90 = true := by rw [hAZ]; omega
    have hnot2 : ¬ CONTAINS key.wVirtualKeyCode 0xdb 0xdd = true := by rw [hP]; omega
    rw [read, hpass, if_neg hnot, if_neg hnot2, if_neg (by omega), if_neg (by omega), if_pos h,
      shift_tab_plain _ _ (by intro h9; exact absurd h9.1 (by decide))]
    simp only [Flow.toPass, Nat.add_zero]
  · intro h
    have hnot : ¬ CONTAINS key.wVirtualKeyCode 65 90 = true := by rw [hAZ]; omega
    have hnot2 : ¬ CONTAINS key.wVirtualKeyCode 0xdb 0xdd = true := by rw [hP]; omega
    rw [read, hpass, if_neg hnot, if_neg hnot2, if_pos h,
      shift_tab_plain _ _ (by intro h9; exact absurd h9.1 (by decide))]
    simp only [Flow.toPass, Nat.add_zero]
  · intro h1 h2 h3 h4 h5
    have hnot : ¬ CONTAINS key.wVirtualKeyCode 65 90 = true := by rw [hAZ]; exact h1
    have hnot2 : ¬ CONTAINS key.wVirtualKeyCode 0xdb 0xdd = true := by rw [hP]; exact h2
    rw [read, hpass, if_neg hnot, if_neg hnot2, if_neg h5, if_neg h3, if_neg h4]
    simp only [Flow.toPass, Nat.add_zero]
  · intro k st2 con2 r hdone
    rw [hpass] at hdone
    by_cases c1 : CONTAINS key.wVirtualKeyCode 65 90 = true
    · have hr := hAZ.mp c1
      rw [if_pos c1] at hdone
      by_cases h9 : key.wVirtualKeyCode - 64 = 9 ∧ key.dwControlKeyState &&& SHIFT_PRESSED ≠ 0
      · have h73 : key.wVirtualKeyCode = 73 := by omega
        rw [h73, shift_tab_tab _ h9.2] at hdone
        simp only [Flow.toPass, Pass.done.injEq] at hdone
        exact Or.inr ⟨hdone.1.symm, h73, h9.2⟩
      · rw [shift_tab_plain _ _ h9] at hdone
        simp only [Flow.toPass, Pass.done.injEq] at hdone
        left; omega
    · rw [if_neg c1] at hdone
      by_cases c2 : CONTAINS key.wVirtualKeyCode 0xdb 0xdd = true
      · have hr := hP.mp c2
        rw [if_pos c2, shift_tab_plain _ _ (by intro h; omega)] at hdone
        simp only [Flow.toPass, Pass.done.injEq] at hdone
        left; omega
      · rw [if_neg c2] at hdone
        by_cases c3 : key.wVirtualKeyCode = 0x32
        · rw [if_pos c3, shift_tab_plain _ _ (by intro h9; exact absurd h9.1 (by decide))] at hdone
          simp only [Flow.toPass, Pass.done.injEq] at hdone
          left; omega
        · rw [if_neg c3] at hdone
          by_cases c4 : key.wVirtualKeyCode = 0x36
          · rw [if_pos c4,
              shift_tab_plain _ _ (by intro h9; exact absurd h9.1 (by decide))] at hdone
            simp only [Flow.toPass, Pass.done.injEq] at hdone
            left; omega
          · rw [if_neg c4] at hdone
            by_cases c5 : key.wVirtualKeyCode = 0xbd
            · rw [if_pos c5,
                shift_tab_plain _ _ (by intro h9; exact absurd h9.1 (by decide))] at hdone
              simp only [Flow.toPass, Pass.done.injEq] at hdone
              left; omega
            · rw [if_neg c5] at hdone
              simp only [Flow.toPass] at hdone
              exact absurd hdone (by simp)

theorem ctrl_key_control_code_witness :
    read settings_off (0 + 1) statics_80x25
        ⟨screen_80x25 :: screen_80x25 :: [],
          ⟨KEY_EVENT, ⟨true, 0, 65, 0x1e, LEFT_CTRL_PRESSED⟩⟩ :: []⟩ 0
      = some ⟨65 - 0x40, ⟨0, statics_80x25.g_last_buffer_size⟩, ⟨[], []⟩, 0⟩ :=
  (ctrl_key_control_code settings_off 0 0 statics_80x25 screen_80x25 screen_80x25 [] []
    ⟨true, 0, 65, 0x1e, LEFT_CTRL_PRESSED⟩ rfl (by decide) rfl rfl rfl (by decide) (by decide)
    (by decide) (by decide)).1 (by decide) (by decide)

/-- C8 (as stated) fails: a Shift+Tab key-down that also has left-Alt and
left-Ctrl held is an AltGr combination; with `use_altgr_substitute` at `0` its
character is dropped and the event is discarded (virtual key 9 has no control
code), so `read()` returns the code of the next key, `x`, and never `0xE0`. -/
theorem shift_tab_with_altgr_discarded :
    (SHIFT_PRESSED ||| LEFT_ALT_PRESSED ||| LEFT_CTRL_PRESSED) &&& SHIFT_PRESSED ≠ 0 ∧
    read settings_off 2 statics_80x25
        ⟨[screen_80x25, screen_80x25, screen_80x25, screen_80x25],
          [key_down 9 9 0x0f (SHIFT_PRESSED ||| LEFT_ALT_PRESSED ||| LEFT_CTRL_PRESSED),
            key_down 0x78 0x58 0x2d 0]⟩ 0
      = some ⟨0x78, ⟨0, statics_80x25.g_last_buffer_size⟩, ⟨[], []⟩, 0⟩ := by
  decide

/-- C8 (amended): a key-down event that produces the Tab character with Shift
held, and that the AltGr gate does not strip of its character (not left-Alt
and Ctrl held while `use_altgr_substitute` is `0`), read with no pending code
and an unchanged geometry: `read()` returns the prefix `0xE0`, and the next
`read()` returns `Z` (`0x5A`) and reads nothing from the console. -/
theorem shift_tab_marker_then_Z (setting : String → Int) (fuel resizes : Nat)
    (st : Statics) (csbi csbi2 : CONSOLE_SCREEN_BUFFER_INFO)
    (screen : List CONSOLE_SCREEN_BUFFER_INFO) (input : List INPUT_RECORD)
    (key : KEY_EVENT_RECORD)
    (hcarry : st.carry = 0) (hg : st.g_last_buffer_size ≠ 0)
    (hsame : buffer_size csbi = st.g_last_buffer_size)
    (hdown : key.bKeyDown = true) (hchar : key.UnicodeChar = 9)
    (hshift : key.dwControlKeyState &&& SHIFT_PRESSED ≠ 0)
    (hgate : ¬(key.dwControlKeyState &&& LEFT_ALT_PRESSED ≠ 0
      ∧ key.dwControlKeyState &&& (LEFT_CTRL_PRESSED ||| RIGHT_CTRL_PRESSED) ≠ 0
      ∧ setting "use_altgr_substitute" = 0)) :
    read setting (fuel + 1) st ⟨csbi :: csbi2 :: screen, ⟨KEY_EVENT, key⟩ :: input⟩ resizes
      = some ⟨0xe0, ⟨0x5A, st.g_last_buffer_size⟩, ⟨screen, input⟩, resizes⟩ ∧
    (∀ (fuel2 resizes2 : Nat) (con : ConsoleIn),
      read setting (fuel2 + 1) ⟨0x5A, st.g_last_buffer_size⟩ con resizes2
        = some ⟨0x5A, ⟨0, st.g_last_buffer_size⟩, con, resizes2⟩) := by
  have haltgr : ¬ ((decide (key.dwControlKeyState &&& LEFT_ALT_PRESSED ≠ 0)
        && decide (key.dwControlKeyState
            &&& (LEFT_CTRL_PRESSED ||| RIGHT_CTRL_PRESSED) ≠ 0)
        && decide (key.UnicodeChar ≠ 0)) = true
      ∧ setting "use_altgr_substitute" = 0) := by
    intro h
    apply hgate
    obtain ⟨h1, h2⟩ := h
    simp only [Bool.and_eq_true, decide_eq_true_eq] at h1
    exact ⟨h1.1.1, h1.1.2, h2⟩
  have hdec : decode_key 0 9 key.wVirtualKeyCode key.wVirtualScanCode key.dwControlKeyState
      = Flow.ret 0xe0 90 := by
    unfold decode_key
    rw [if_neg (by decide), if_neg (by intro h; exact absurd h.2 (by decide)),
      shift_tab_tab _ hshift]
  constructor
  · rw [read, read_pass_key_down setting st csbi csbi2 screen input key hcarry hg hsame hdown,
      if_neg haltgr, hchar, hdec]
    simp only [Flow.toPass, Nat.add_zero]
  · intro fuel2 resizes2 con
    rw [read, read_pass_carry setting _ _ con (by decide) (by decide)]
    simp only [Nat.add_zero]

theorem shift_tab_marker_then_Z_witness :
    read settings_off (0 + 1) statics_80x25
        ⟨screen_80x25 :: screen_80x25 :: [],
          ⟨KEY_EVENT, ⟨true, 9, 9, 0x0f, SHIFT_PRESSED⟩⟩ :: []⟩ 0
      = some ⟨0xe0, ⟨0x5A, statics_80x25.g_last_buffer_size⟩, ⟨[], []⟩, 0⟩ :=
  (shift_tab_marker_then_Z settings_off 0 0 statics_80x25 screen_80x25 screen_80x25 [] []
    ⟨true, 9, 9, 0x0f, SHIFT_PRESSED⟩ rfl (by decide) rfl rfl rfl (by decide) (by decide)).1

/-! ## Theorems: the resize check -/

theorem resize_polls_nonzero : ∀ (rest : List Nat) (g : Nat), g ≠ 0 → (∀ x ∈ rest, x ≠ 0) →
    resize_polls g rest
      = List.zipWith (fun prev cur => if cur ≠ prev then 1 else 0) (g :: rest) rest := by
  intro rest
  induction rest with
  | nil => intro g _ _; rfl
  | cons i rest ih =>
    intro g hg hall
    have hi : i ≠ 0 := hall i (List.mem_cons_self i rest)
    have hrest : ∀ x ∈ rest, x ≠ 0 := fun x hx => hall x (List.mem_cons_of_mem i hx)
    by_cases hgi : g = i
    · subst hgi
      have hrc : resize_check g g = none := resize_check_unchanged g g hg rfl
      simp only [resize_polls, hrc, List.zipWith_cons_cons, ne_eq, not_true_eq_false, if_false]
      rw [ih g hg hrest]
    · have hrc : resize_check g i = some (1, i) := by
        unfold resize_check
        rw [if_pos (Or.inr hgi), if_pos hg]
      have hig : i ≠ g := fun h => hgi h.symm
      simp only [resize_polls, hrc, List.zipWith_cons_cons, ne_eq, hig, not_false_eq_true,
        if_true]
      rw [ih i hi hrest]

/-- A pass of `read()` in which the resize check does not fire (a pending
code, or an unchanged geometry) leaves `g_last_buffer_size` as it was and
makes no `on_terminal_resize` call: the branch on `WINDOW_BUFFER_SIZE_EVENT`
is never taken, since it comes after the records that are not key events
have been discarded. -/
theorem read_pass_keeps_geometry (setting : String → Int) (st : Statics) (con : ConsoleIn)
    (h : st.carry ≠ 0 ∨ ∃ csbi screen, con.screen = csbi :: screen
      ∧ resize_check st.g_last_buffer_size (buffer_size csbi) = none) :
    match read_pass setting st con with
    | Pass.again st2 _ r => st2.g_last_buffer_size = st.g_last_buffer_size ∧ r = 0
    | Pass.done _ st2 _ r => st2.g_last_buffer_size = st.g_last_buffer_size ∧ r = 0
    | Pass.blocked => True := by
  have hflow : ∀ (f : Flow) (c : ConsoleIn),
      match f.toPass st.g_last_buffer_size c with
      | Pass.again st2 _ r => st2.g_last_buffer_size = st.g_last_buffer_size ∧ r = 0
      | Pass.done _ st2 _ r => st2.g_last_buffer_size = st.g_last_buffer_size ∧ r = 0
      | Pass.blocked => True := by
    intro f c
    cases f <;> simp [Flow.toPass]
  by_cases hc : st.carry ≠ 0
  · unfold read_pass
    rw [if_pos hc]
    exact hflow _ _
  · rcases h with h | ⟨csbi, screen, hscreen, hrc⟩
    · exact absurd h hc
    · unfold read_pass
      rw [if_neg hc]
      obtain ⟨scr, inp⟩ := con
      simp only at hscreen
      subst hscreen
      simp only [hrc]
      cases inp with
      | nil => trivial
      | cons record input =>
        simp only []
        by_cases hk : record.EventType ≠ KEY_EVENT
        · rw [if_pos hk]
          exact ⟨rfl, rfl⟩
        · rw [if_neg hk]
          cases screen with
          | nil => trivial
          | cons csbi2 screen2 =>
            simp only []
            have hw : ¬ record.EventType = WINDOW_BUFFER_SIZE_EVENT := by
              rw [not_not.mp hk]; decide
            rw [if_neg hw]
            by_cases hd : record.KeyEvent.bKeyDown = false
            · simp only [hd, if_true]
              split_ifs
              · exact ⟨rfl, rfl⟩
              · exact ⟨rfl, rfl⟩
            · simp only [hd, if_false]
              exact hflow _ _

/-- A pass of `read()` takes a record from the input queue only when no code
is pending and the resize check does not fire. -/
theorem read_pass_takes_record (setting : String → Int) (st : Statics)
    (screen : List CONSOLE_SCREEN_BUFFER_INFO) (record : INPUT_RECORD)
    (input : List INPUT_RECORD)
    (h : match read_pass setting st ⟨screen, record :: input⟩ with
      | Pass.again _ con2 _ => con2.input = input
      | Pass.done _ _ con2 _ => con2.input = input
      | Pass.blocked => False) :
    st.carry = 0 ∧ ∃ csbi rest, screen = csbi :: rest
      ∧ resize_check st.g_last_buffer_size (buffer_size csbi) = none := by
  have hlen : record :: input ≠ input := by
    intro he
    have := congrArg List.length he
    simp at this
  by_cases hc : st.carry ≠ 0
  · exfalso
    unfold read_pass at h
    rw [if_pos hc] at h
    cases hf : decode_key 0 st.carry 0 0 ENHANCED_KEY <;> rw [hf] at h <;>
      simp only [Flow.toPass] at h <;> exact hlen h
  · refine ⟨not_not.mp hc, ?_⟩
    unfold read_pass at h
    rw [if_neg hc] at h
    cases screen with
    | nil => exact absurd h (by simp)
    | cons csbi rest =>
      refine ⟨csbi, rest, rfl, ?_⟩
      cases hrc : resize_check st.g_last_buffer_size (buffer_size csbi) with
      | none => rfl
      | some p =>
        exfalso
        simp only [hrc] at h
        exact hlen h

/-- Whatever the geometry does: a call of `read()` with no pending code that
returns, on a console trace whose next record is the key event `key`, goes
through a pass that starts with no pending code and an unchanged geometry and
reads that record. The theorems on single key events are stated for that
pass. -/
theorem read_reaches_key_record (setting : String → Int) (key : KEY_EVENT_RECORD)
    (input : List INPUT_RECORD) : ∀ (fuel g : Nat) (screen : List CONSOLE_SCREEN_BUFFER_INFO)
    (n : Nat) (r : ReadResult),
    read setting fuel ⟨0, g⟩ ⟨screen, ⟨KEY_EVENT, key⟩ :: input⟩ n = some r →
    ∃ (fuel2 g2 : Nat) (csbi csbi2 : CONSOLE_SCREEN_BUFFER_INFO)
      (screen2 : List CONSOLE_SCREEN_BUFFER_INFO) (n2 : Nat),
      g2 ≠ 0 ∧ buffer_size csbi = g2 ∧
      read setting (fuel2 + 1) ⟨0, g2⟩ ⟨csbi :: csbi2 :: screen2, ⟨KEY_EVENT, key⟩ :: input⟩ n2
        = some r := by
  intro fuel
  induction fuel with
  | zero => intro g screen n r h; exact absurd h (by simp [read])
  | succ fuel ih =>
    intro g screen n r h
    cases screen with
    | nil => exact absurd h (by simp [read, read_pass])
    | cons csbi rest =>
      cases hrc : resize_check g (buffer_size csbi) with
      | some p =>
        obtain ⟨r1, g1⟩ := p
        have hstep : read setting (fuel + 1) ⟨0, g⟩ ⟨csbi :: rest, ⟨KEY_EVENT, key⟩ :: input⟩ n
            = read setting fuel ⟨0, g1⟩ ⟨rest, ⟨KEY_EVENT, key⟩ :: input⟩ (n + r1) := by
          rw [read]
          simp only [read_pass, ne_eq, not_true_eq_false, if_false, hrc]
        rw [hstep] at h
        exact ih g1 rest _ r h
      | none =>
        have hg : g ≠ 0 ∧ buffer_size csbi = g := by
          unfold resize_check at hrc
          split_ifs at hrc with hcond
          rw [not_or, not_not] at hcond
          exact ⟨hcond.1, hcond.2.symm⟩
        cases rest with
        | nil =>
          exfalso
          rw [read] at h
          simp [read_pass, hrc] at h
        | cons csbi2 screen2 =>
          exact ⟨fuel, g, csbi, csbi2, screen2, n, hg.1, hg.2, h⟩

/-- The resize check on a run of non-zero geometry values, from program start:
nothing at the first value, then one notification at each change. -/
theorem resize_polls_from_start (g1 : Nat) (rest : List Nat)
    (h1 : g1 ≠ 0) (hrest : ∀ x ∈ rest, x ≠ 0) :
    resize_polls 0 (g1 :: rest)
      = 0 :: List.zipWith (fun prev cur => if cur ≠ prev then 1 else 0) (g1 :: rest) rest := by
  have hfirst : resize_check 0 g1 = some (0, g1) := by
    unfold resize_check
    simp
  simp only [resize_polls, hfirst]
  rw [resize_polls_nonzero rest g1 h1 hrest]

theorem or_ne_zero_right (a b : Nat) (hb : b ≠ 0) : a ||| b ≠ 0 := by
  obtain ⟨i, hi⟩ := Nat.ne_zero_implies_bit_true hb
  intro h
  have hbit : (a ||| b).testBit i = true := by
    rw [Nat.testBit_or, hi, Bool.or_true]
  rw [h, Nat.zero_testBit] at hbit
  exact absurd hbit (by decide)

/-- The packed geometry of a screen buffer whose window has at least one row
is never `0`, the value that marks "no geometry recorded yet". -/
theorem buffer_size_ne_zero (csbi : CONSOLE_SCREEN_BUFFER_INFO) (h : window_ok csbi) :
    buffer_size csbi ≠ 0 := by
  obtain ⟨h1, h2, h3⟩ := h
  unfold buffer_size
  apply or_ne_zero_right
  have hmod : (csbi.srWindow_Bottom - csbi.srWindow_Top + 1) % 2 ^ 32
      = csbi.srWindow_Bottom - csbi.srWindow_Top + 1 := by
    apply Int.emod_eq_of_lt
    · omega
    · norm_num; omega
  rw [hmod]
  omega

/-- C9: for every sequence of geometries reported by the console (each with a
window of at least one row) and observed by the resize check since
construction (`g_last_buffer_size = 0`), the first observation fires no
notification and each later one fires exactly one if its packed value differs
from the one before and none if it is equal; so two equal polls notify
nothing and a third, changed poll notifies once. The packed value of such a
geometry is never `0`. In `read()` a pass whose check fires makes exactly that
number of `on_terminal_resize` calls, records the geometry and reads no input
record; a pass whose check does not fire makes no such call and leaves the
recorded geometry as it was. -/
theorem resize_notifies_once_per_change (csbi1 : CONSOLE_SCREEN_BUFFER_INFO)
    (rest : List CONSOLE_SCREEN_BUFFER_INFO)
    (hvalid : ∀ c ∈ csbi1 :: rest, window_ok c) :
    resize_polls 0 ((csbi1 :: rest).map buffer_size)
      = 0 :: List.zipWith (fun prev cur => if cur ≠ prev then 1 else 0)
          ((csbi1 :: rest).map buffer_size) (rest.map buffer_size) ∧
    (∀ csbi2 : CONSOLE_SCREEN_BUFFER_INFO, window_ok csbi2 →
      buffer_size csbi2 ≠ buffer_size csbi1 →
      resize_polls 0 [buffer_size csbi1, buffer_size csbi1, buffer_size csbi2] = [0, 0, 1]) ∧
    (∀ c ∈ csbi1 :: rest, buffer_size c ≠ 0) ∧
    (∀ (setting : String → Int) (g : Nat) (csbi : CONSOLE_SCREEN_BUFFER_INFO)
        (screen : List CONSOLE_SCREEN_BUFFER_INFO) (input : List INPUT_RECORD)
        (r g2 : Nat), resize_check g (buffer_size csbi) = some (r, g2) →
      read_pass setting ⟨0, g⟩ ⟨csbi :: screen, input⟩
        = Pass.again ⟨0, buffer_size csbi⟩ ⟨screen, input⟩ (if g ≠ 0 then 1 else 0)) ∧
    (∀ (setting : String → Int) (st : Statics) (con : ConsoleIn),
      (st.carry ≠ 0 ∨ ∃ csbi screen, con.screen = csbi :: screen
        ∧ resize_check st.g_last_buffer_size (buffer_size csbi) = none) →
      match read_pass setting st con with
      | Pass.again st2 _ r => st2.g_last_buffer_size = st.g_last_buffer_size ∧ r = 0
      | Pass.done _ st2 _ r => st2.g_last_buffer_size = st.g_last_buffer_size ∧ r = 0
      | Pass.blocked => True) := by
  have hg1 : buffer_size csbi1 ≠ 0 :=
    buffer_size_ne_zero csbi1 (hvalid csbi1 (List.mem_cons_self _ _))
  have hgrest : ∀ x ∈ rest.map buffer_size, x ≠ 0 := by
    intro x hx
    obtain ⟨c, hc, hcx⟩ := List.mem_map.mp hx
    rw [← hcx]
    exact buffer_size_ne_zero c (hvalid c (List.mem_cons_of_mem _ hc))
  refine ⟨?_, ?_, fun c hc => buffer_size_ne_zero c (hvalid c hc), ?_,
    fun setting st con h => read_pass_keeps_geometry setting st con h⟩
  · rw [List.map_cons]
    exact resize_polls_from_start (buffer_size csbi1) (rest.map buffer_size) hg1 hgrest
  · intro csbi2 h2 hne
    rw [resize_polls_from_start (buffer_size csbi1) [buffer_size csbi1, buffer_size csbi2] hg1
      (by
        intro x hx
        simp only [List.mem_cons, List.mem_singleton, List.not_mem_nil, or_false] at hx
        rcases hx with h | h <;> rw [h]
        · exact hg1
        · exact buffer_size_ne_zero csbi2 h2)]
    simp [hne]
  · intro setting g csbi screen input r g2 hrc
    have hval : (r, g2) = (if g ≠ 0 then 1 else 0, buffer_size csbi) := by
      unfold resize_check at hrc
      split_ifs at hrc <;> simp_all
    unfold read_pass
    simp only [ne_eq, not_true_eq_false, if_false, hrc]
    rw [Prod.mk.injEq] at hval
    rw [hval.1, hval.2]

theorem resize_notifies_once_per_change_witness :
    resize_polls 0 ((screen_80x25 :: [screen_80x25, screen_100x25]).map buffer_size)
      = 0 :: List.zipWith (fun prev cur => if cur ≠ prev then 1 else 0)
          ((screen_80x25 :: [screen_80x25, screen_100x25]).map buffer_size)
          ([screen_80x25, screen_100x25].map buffer_size) :=
  (resize_notifies_once_per_change screen_80x25 [screen_80x25, screen_100x25] (by
    intro c hc
    simp only [List.mem_cons, List.mem_singleton, List.not_mem_nil, or_false] at hc
    rcases hc with h | h | h <;> subst h <;> unfold window_ok <;> decide)).1

/-! ## Theorems: `write()` -/

theorem console_text_append (a b : List ConsoleOp) :
    console_text (a ++ b) = console_text a ++ console_text b := by
  induction a with
  | nil => rfl
  | cons op rest ih =>
    cases op with
    | set_attr x => simpa [console_text] using ih
    | write_text t => simp [console_text, ih]

theorem fwrite_sgr_code_no_text (parse : List Nat → Nat × List Int) (code : List Nat)
    (current defaults attr : Nat) (ops : List ConsoleOp)
    (h : fwrite_sgr_code parse code current defaults = some (attr, ops)) :
    console_text ops = [] := by
  unfold fwrite_sgr_code fwrite_sgr_params at h
  split_ifs at h with hm
  · simp only [Option.some.injEq, Prod.mk.injEq] at h
    rw [← h.2]; rfl
  · simp only [] at h
    split at h
    · exact absurd h (by simp)
    · simp only [Option.some.injEq, Prod.mk.injEq] at h
      rw [← h.2]; rfl

theorem fwrite_sgr_code_not_m (parse : List Nat → Nat × List Int) (code : List Nat)
    (current defaults : Nat) (h : (parse code).1 ≠ CHAR_m) :
    fwrite_sgr_code parse code current defaults = some (current, []) := by
  unfold fwrite_sgr_code fwrite_sgr_params
  rw [if_pos h]

theorem write_loop_zero_text (find : List Nat → Nat × Nat) (parse : List Nat → Nat × List Int)
    (attr_def fuel : Nat) (next : List Nat) (attr_cur : Nat) (h : deref next = 0) :
    write_loop find parse attr_def fuel next attr_cur = some [] := by
  unfold write_loop
  rw [if_pos h]

theorem write_loop_succ (find : List Nat → Nat × Nat) (parse : List Nat → Nat × List Int)
    (attr_def fuel : Nat) (next : List Nat) (attr_cur : Nat) (h : deref next ≠ 0) :
    write_loop find parse attr_def (fuel + 1) next attr_cur
      = if deref (next.drop (find next).1) ≠ 0 then
          match fwrite_sgr_code parse (next.drop (find next).1) attr_cur attr_def with
          | none => none
          | some (attr, ops) =>
            match write_loop find parse attr_def fuel
                ((next.drop (find next).1).drop (find next).2) attr with
            | none => none
            | some rest => some (ConsoleOp.write_text (next.take (find next).1) :: (ops ++ rest))
        else
          match write_loop find parse attr_def fuel
              ((next.drop (find next).1).drop (find next).2) attr_cur with
          | none => none
          | some rest => some (ConsoleOp.write_text (next.take (find next).1) :: rest) := by
  rw [write_loop]
  simp only [if_neg h]

theorem take_append_sublist (next x : List Nat) (off size : Nat)
    (hx : x.Sublist ((next.drop off).drop size)) : (next.take off ++ x).Sublist next := by
  have h1 : x.Sublist (next.drop off) := hx.trans (List.drop_sublist _ _)
  have h2 := List.Sublist.append (List.Sublist.refl (next.take off)) h1
  rwa [List.take_append_drop] at h2

/-- What the loop of `write()` sends to the console writer is a
subsequence of the text: nothing is added. -/
theorem write_loop_sublist (find : List Nat → Nat × Nat) (parse : List Nat → Nat × List Int)
    (attr_def : Nat) : ∀ (fuel : Nat) (next : List Nat) (attr_cur : Nat)
    (ops : List ConsoleOp), write_loop find parse attr_def fuel next attr_cur = some ops →
      (console_text ops).Sublist next := by
  intro fuel
  induction fuel with
  | zero =>
    intro next attr_cur ops h
    by_cases hz : deref next = 0
    · rw [write_loop_zero_text _ _ _ _ _ _ hz] at h
      simp only [Option.some.injEq] at h
      rw [← h]
      exact List.nil_sublist _
    · rw [write_loop] at h
      simp only [if_neg hz] at h
      exact absurd h (by simp)
  | succ fuel ih =>
    intro next attr_cur ops h
    by_cases hz : deref next = 0
    · rw [write_loop_zero_text _ _ _ _ _ _ hz] at h
      simp only [Option.some.injEq] at h
      rw [← h]
      exact List.nil_sublist _
    · rw [write_loop_succ _ _ _ _ _ _ hz] at h
      by_cases hc : deref (next.drop (find next).1) ≠ 0
      · rw [if_pos hc] at h
        cases hf : fwrite_sgr_code parse (next.drop (find next).1) attr_cur attr_def with
        | none => rw [hf] at h; exact absurd h (by simp)
        | some p =>
          obtain ⟨attr, sgr_ops⟩ := p
          rw [hf] at h
          simp only [] at h
          cases hl : write_loop find parse attr_def fuel
              ((next.drop (find next).1).drop (find next).2) attr with
          | none => rw [hl] at h; exact absurd h (by simp)
          | some rest =>
            rw [hl] at h
            simp only [Option.some.injEq] at h
            rw [← h]
            simp only [console_text, console_text_append,
              fwrite_sgr_code_no_text parse _ _ _ _ _ hf, List.nil_append]
            exact take_append_sublist next _ _ _ (ih _ _ _ hl)
      · rw [if_neg hc] at h
        cases hl : write_loop find parse attr_def fuel
            ((next.drop (find next).1).drop (find next).2) attr_cur with
        | none => rw [hl] at h; exact absurd h (by simp)
        | some rest =>
          rw [hl] at h
          simp only [Option.some.injEq] at h
          rw [← h]
          simp only [console_text]
          exact take_append_sublist next _ _ _ (ih _ _ _ hl)

theorem fwrite_sgr_code_some (parse : List Nat → Nat × List Int) (code : List Nat)
    (current defaults : Nat) :
    ∃ attr ops, fwrite_sgr_code parse code current defaults = some (attr, ops) := by
  by_cases h : (parse code).1 = CHAR_m
  · unfold fwrite_sgr_code
    rw [h, fwrite_sgr_params_m]
    exact ⟨_, _, rfl⟩
  · exact ⟨current, [], fwrite_sgr_code_not_m parse code current defaults h⟩

/-- With a tokenizer that advances on a text that has not ended, the loop of
`write()` ends within as many iterations as the text has characters. -/
theorem write_loop_total (find : List Nat → Nat × Nat) (parse : List Nat → Nat × List Int)
    (attr_def : Nat) (hprog : ∀ t, deref t ≠ 0 → 0 < (find t).1 + (find t).2) :
    ∀ (fuel : Nat) (next : List Nat) (attr_cur : Nat), next.length ≤ fuel →
      ∃ ops, write_loop find parse attr_def fuel next attr_cur = some ops := by
  intro fuel
  induction fuel with
  | zero =>
    intro next attr_cur h
    have hnil : next = [] := List.length_eq_zero.mp (Nat.le_zero.mp h)
    exact ⟨[], write_loop_zero_text _ _ _ _ _ _ (by rw [hnil]; rfl)⟩
  | succ fuel ih =>
    intro next attr_cur h
    by_cases hz : deref next = 0
    · exact ⟨[], write_loop_zero_text _ _ _ _ _ _ hz⟩
    · have hne : next ≠ [] := by
        intro he; rw [he] at hz; exact hz rfl
      have hpos : 0 < next.length := List.length_pos.mpr hne
      have hp := hprog next hz
      have hlen : ((next.drop (find next).1).drop (find next).2).length ≤ fuel := by
        rw [List.length_drop, List.length_drop]; omega
      rw [write_loop_succ _ _ _ _ _ _ hz]
      by_cases hc : deref (next.drop (find next).1) ≠ 0
      · rw [if_pos hc]
        obtain ⟨attr, sgr_ops, hf⟩ :=
          fwrite_sgr_code_some parse (next.drop (find next).1) attr_cur attr_def
        obtain ⟨rest, hl⟩ := ih ((next.drop (find next).1).drop (find next).2) attr hlen
        rw [hf]
        simp only [hl]
        exact ⟨_, rfl⟩
      · rw [if_neg hc]
        obtain ⟨rest, hl⟩ := ih ((next.drop (find next).1).drop (find next).2) attr_cur hlen
        simp only [hl]
        exact ⟨_, rfl⟩

/-- What the loop of `write()` sends to the console writer is the text with
the codes located by the tokenizer taken out, whatever the parser, the
terminators and the attributes. -/
theorem write_loop_text (find : List Nat → Nat × Nat) (parse : List Nat → Nat × List Int)
    (attr_def : Nat) : ∀ (fuel : Nat) (next : List Nat) (attr_cur : Nat)
    (ops : List ConsoleOp), write_loop find parse attr_def fuel next attr_cur = some ops →
      console_text ops = text_without_codes find fuel next := by
  intro fuel
  induction fuel with
  | zero =>
    intro next attr_cur ops h
    by_cases hz : deref next = 0
    · rw [write_loop_zero_text _ _ _ _ _ _ hz] at h
      simp only [Option.some.injEq] at h
      rw [← h]
      rfl
    · rw [write_loop] at h
      simp only [if_neg hz] at h
      exact absurd h (by simp)
  | succ fuel ih =>
    intro next attr_cur ops h
    by_cases hz : deref next = 0
    · rw [write_loop_zero_text _ _ _ _ _ _ hz] at h
      simp only [Option.some.injEq] at h
      rw [← h, text_without_codes, if_pos hz]
      rfl
    · rw [write_loop_succ _ _ _ _ _ _ hz] at h
      rw [text_without_codes, if_neg hz]
      by_cases hc : deref (next.drop (find next).1) ≠ 0
      · rw [if_pos hc] at h
        cases hf : fwrite_sgr_code parse (next.drop (find next).1) attr_cur attr_def with
        | none => rw [hf] at h; exact absurd h (by simp)
        | some p =>
          obtain ⟨attr, sgr_ops⟩ := p
          rw [hf] at h
          simp only [] at h
          cases hl : write_loop find parse attr_def fuel
              ((next.drop (find next).1).drop (find next).2) attr with
          | none => rw [hl] at h; exact absurd h (by simp)
          | some rest =>
            rw [hl] at h
            simp only [Option.some.injEq] at h
            rw [← h]
            simp only [console_text, console_text_append,
              fwrite_sgr_code_no_text parse _ _ _ _ _ hf, List.nil_append]
            rw [ih _ _ _ hl]
      · rw [if_neg hc] at h
        cases hl : write_loop find parse attr_def fuel
            ((next.drop (find next).1).drop (find next).2) attr_cur with
        | none => rw [hl] at h; exact absurd h (by simp)
        | some rest =>
          rw [hl] at h
          simp only [Option.some.injEq] at h
          rw [← h]
          simp only [console_text]
          rw [ih _ _ _ hl]

theorem write_text_eq (find : List Nat → Nat × Nat) (parse : List Nat → Nat × List Int)
    (csbi : CONSOLE_SCREEN_BUFFER_INFO) (text : List Nat) (n fuel : Nat)
    (ops : List ConsoleOp) (h : write find parse true csbi text n fuel = some ops) :
    console_text ops = text_without_codes find fuel text ∧ (console_text ops).Sublist text := by
  unfold write at h
  simp only [Bool.true_eq_false, if_false] at h
  cases hl : write_loop find parse csbi.wAttributes fuel text csbi.wAttributes with
  | none => rw [hl] at h; exact absurd h (by simp)
  | some loop_ops =>
    rw [hl] at h
    simp only [Option.some.injEq] at h
    rw [← h, console_text_append]
    simp only [console_text, List.append_nil]
    exact ⟨write_loop_text find parse _ _ _ _ _ hl, write_loop_sublist find parse _ _ _ _ _ hl⟩

theorem write_total (find : List Nat → Nat × Nat) (parse : List Nat → Nat × List Int)
    (csbi : CONSOLE_SCREEN_BUFFER_INFO) (text : List Nat) (n fuel : Nat)
    (hprog : ∀ t, deref t ≠ 0 → 0 < (find t).1 + (find t).2) (hfuel : text.length ≤ fuel) :
    ∃ ops, write find parse true csbi text n fuel = some ops := by
  obtain ⟨ops, hl⟩ :=
    write_loop_total find parse csbi.wAttributes hprog fuel text csbi.wAttributes hfuel
  refine ⟨ops ++ [ConsoleOp.set_attr csbi.wAttributes], ?_⟩
  unfold write
  simp only [Bool.true_eq_false, if_false, hl]

/-- C10 (as stated) fails: for every tokenizer that locates the code `ESC[2J`
in the text `a ESC[2J` (offset 1, size 4) and every parser, `write()` returns
and sends `a` only: the code, whose terminator `J` is not `m`, is not written.
The tokenizer and parser modelled from the spec are such a pair. -/
theorem non_sgr_token_not_written :
    (∀ (find : List Nat → Nat × Nat) (parse : List Nat → Nat × List Int) (fuel : Nat),
      find [97, 27, 91, 50, 74] = (1, 4) →
      ∃ ops, write find parse true screen_80x25 [97, 27, 91, 50, 74] 5 (fuel + 1) = some ops
        ∧ console_text ops = [97]) ∧
    ¬ ([27, 91, 50, 74] <:+: ([97] : List Nat)) ∧
    find_next_ansi_code_w [97, 27, 91, 50, 74] = (1, 4) ∧
    (parse_ansi_code_w [27, 91, 50, 74]).1 = 74 ∧ (74 : Nat) ≠ CHAR_m ∧
    write find_next_ansi_code_w parse_ansi_code_w true screen_80x25 [97, 27, 91, 50, 74] 5 1
      = some [ConsoleOp.write_text [97], ConsoleOp.set_attr 7] := by
  refine ⟨?_, by decide, by decide, by decide, by decide, by decide⟩
  intro find parse fuel hfind
  have hnext : deref [97, 27, 91, 50, 74] ≠ 0 := by decide
  have hcode : deref [27, 91, 50, 74] ≠ 0 := by decide
  obtain ⟨attr, sgr_ops, hf⟩ :=
    fwrite_sgr_code_some parse [27, 91, 50, 74] screen_80x25.wAttributes
      screen_80x25.wAttributes
  have hloop : write_loop find parse screen_80x25.wAttributes (fuel + 1) [97, 27, 91, 50, 74]
      screen_80x25.wAttributes = some (ConsoleOp.write_text [97] :: (sgr_ops ++ [])) := by
    rw [write_loop_succ _ _ _ _ _ _ hnext, hfind]
    simp only [List.drop_succ_cons, List.drop_zero, List.take_succ_cons, List.take_zero,
      List.drop_nil, if_pos hcode, hf,
      write_loop_zero_text find parse _ fuel [] attr rfl]
  refine ⟨ConsoleOp.write_text [97] :: (sgr_ops ++ [])
    ++ [ConsoleOp.set_attr screen_80x25.wAttributes], ?_, ?_⟩
  · unfold write
    simp only [Bool.true_eq_false, if_false, hloop]
  · have hno := fwrite_sgr_code_no_text parse _ _ _ _ _ hf
    rw [List.append_nil, List.cons_append]
    simp only [console_text]
    rw [console_text_append, hno]
    rfl

/-- C10 (amended): with translation enabled, what `write()` sends to the
console writer is the text, up to its terminating `0`, with every escape code
located by the tokenizer taken out, whatever the terminator of the code, and
nothing added (it is a subsequence of the text); the call returns for a
tokenizer that advances. For a text `pre ++ tok ++ post` whose next code is
`tok` the code is left out; when its terminator is not `m` it has no other
effect: the console calls are the write of `pre` followed by the calls for
`post` alone. -/
theorem write_skips_escape_token (find : List Nat → Nat × Nat)
    (parse : List Nat → Nat × List Int) (csbi : CONSOLE_SCREEN_BUFFER_INFO)
    (pre tok post : List Nat) (char_count char_count2 fuel : Nat)
    (hfind : find (pre ++ tok ++ post) = (pre.length, tok.length))
    (hnext : deref (pre ++ tok ++ post) ≠ 0) (htok : deref (tok ++ post) ≠ 0)
    (hterm : (parse (tok ++ post)).1 ≠ CHAR_m) :
    write find parse true csbi (pre ++ tok ++ post) char_count (fuel + 1)
      = (write find parse true csbi post char_count2 fuel).map
          (fun ops => ConsoleOp.write_text pre :: ops) ∧
    (∀ (text : List Nat) (n fuel2 : Nat) (ops : List ConsoleOp),
      write find parse true csbi text n fuel2 = some ops → (console_text ops).Sublist text) ∧
    (∀ (find2 : List Nat → Nat × Nat) (parse2 : List Nat → Nat × List Int)
        (text : List Nat) (n fuel2 : Nat) (ops : List ConsoleOp),
      write find2 parse2 true csbi text n fuel2 = some ops →
      console_text ops = text_without_codes find2 fuel2 text) ∧
    (∀ (find2 : List Nat → Nat × Nat) (parse2 : List Nat → Nat × List Int)
        (text : List Nat) (n fuel2 : Nat),
      (∀ t, deref t ≠ 0 → 0 < (find2 t).1 + (find2 t).2) → text.length ≤ fuel2 →
      ∃ ops, write find2 parse2 true csbi text n fuel2 = some ops) ∧
    text_without_codes find (fuel + 1) (pre ++ tok ++ post)
      = pre ++ text_without_codes find fuel post := by
  have hdrop : (pre ++ tok ++ post).drop pre.length = tok ++ post := by
    rw [List.append_assoc, List.drop_left]
  have htake : (pre ++ tok ++ post).take pre.length = pre := by
    rw [List.append_assoc, List.take_left]
  have hdrop2 : (tok ++ post).drop tok.length = post := List.drop_left _ _
  refine ⟨?_, ?_, ?_, ?_, ?_⟩
  · unfold write
    simp only [Bool.true_eq_false, if_false]
    rw [write_loop_succ _ _ _ _ _ _ hnext, hfind]
    simp only [hdrop, htake, hdrop2, if_pos htok, fwrite_sgr_code_not_m parse _ _ _ hterm,
      List.nil_append]
    cases write_loop find parse csbi.wAttributes fuel post csbi.wAttributes <;> rfl
  · intro text n fuel2 ops h
    exact (write_text_eq find parse csbi text n fuel2 ops h).2
  · intro find2 parse2 text n fuel2 ops h
    exact (write_text_eq find2 parse2 csbi text n fuel2 ops h).1
  · intro find2 parse2 text n fuel2 hprog hfuel
    exact write_total find2 parse2 csbi text n fuel2 hprog hfuel
  · rw [text_without_codes, if_neg hnext, hfind]
    simp only [hdrop, htake, hdrop2]

theorem write_skips_escape_token_witness :
    write find_next_ansi_code_w parse_ansi_code_w true screen_80x25
        ([97] ++ [27, 91, 50, 74] ++ [98]) 6 (2 + 1)
      = (write find_next_ansi_code_w parse_ansi_code_w true screen_80x25 [98] 1 2).map
          (fun ops => ConsoleOp.write_text [97] :: ops) :=
  (write_skips_escape_token find_next_ansi_code_w parse_ansi_code_w screen_80x25
    [97] [27, 91, 50, 74] [98] 6 1 2 (by decide) (by decide) (by decide) (by decide)).1

theorem console_attr_append_set (d : Nat) : ∀ (ops : List ConsoleOp) (a : Nat),
    console_attr a (ops ++ [ConsoleOp.set_attr d]) = d := by
  intro ops
  induction ops with
  | nil => intro a; rfl
  | cons op rest ih =>
    intro a
    cases op with
    | set_attr x => exact ih x
    | write_text t => exact ih a

theorem find_next_ansi_code_w_advances :
    ∀ t, deref t ≠ 0 → 0 < (find_next_ansi_code_w t).1 + (find_next_ansi_code_w t).2 := by
  intro t h
  cases t with
  | nil => exact absurd rfl h
  | cons c rest =>
    have hc : c ≠ 0 := h
    unfold find_next_ansi_code_w
    rw [if_neg hc]
    cases hts : token_size (c :: rest) with
    | none => simp
    | some n =>
      simp only []
      unfold token_size at hts
      split at hts
      · split at hts
        · simp only [Option.some.injEq] at hts
          omega
        · exact absurd hts (by simp)
      · exact absurd hts (by simp)

/-- C11: with translation enabled, whatever tokens the text contains, the
last console call of `write()` is `SetConsoleTextAttribute` with the ambient
attribute read at the start of the call, so the console attribute after the
call is the one before it. The call returns within `chars.length` iterations
for a tokenizer that advances; whenever it returns, for any tokenizer, its
last call is that one. -/
theorem write_restores_ambient_attribute (find : List Nat → Nat × Nat)
    (parse : List Nat → Nat × List Int) (csbi : CONSOLE_SCREEN_BUFFER_INFO)
    (chars : List Nat) (char_count fuel : Nat)
    (hprog : ∀ t, deref t ≠ 0 → 0 < (find t).1 + (find t).2)
    (hfuel : chars.length ≤ fuel) :
    (∃ ops, write find parse true csbi chars char_count fuel
        = some (ops ++ [ConsoleOp.set_attr csbi.wAttributes]) ∧
      console_attr csbi.wAttributes (ops ++ [ConsoleOp.set_attr csbi.wAttributes])
        = csbi.wAttributes) ∧
    (∀ (find2 : List Nat → Nat × Nat) (parse2 : List Nat → Nat × List Int)
        (fuel2 : Nat) (all : List ConsoleOp),
      write find2 parse2 true csbi chars char_count fuel2 = some all →
      all.getLast? = some (ConsoleOp.set_attr csbi.wAttributes) ∧
      console_attr csbi.wAttributes all = csbi.wAttributes) := by
  constructor
  · obtain ⟨ops, hl⟩ :=
      write_loop_total find parse csbi.wAttributes hprog fuel chars csbi.wAttributes hfuel
    refine ⟨ops, ?_, console_attr_append_set _ _ _⟩
    unfold write
    simp only [Bool.true_eq_false, if_false, hl]
  · intro find2 parse2 fuel2 all h
    unfold write at h
    simp only [Bool.true_eq_false, if_false] at h
    cases hl : write_loop find2 parse2 csbi.wAttributes fuel2 chars csbi.wAttributes with
    | none => rw [hl] at h; exact absurd h (by simp)
    | some ops =>
      rw [hl] at h
      simp only [Option.some.injEq] at h
      rw [← h]
      exact ⟨by simp, console_attr_append_set _ _ _⟩

theorem write_restores_ambient_attribute_witness :
    ∃ ops, write find_next_ansi_code_w parse_ansi_code_w true screen_80x25
        [97, 27, 91, 49, 59, 51, 49, 109, 98] 9 9
        = some (ops ++ [ConsoleOp.set_attr screen_80x25.wAttributes]) ∧
      console_attr screen_80x25.wAttributes
          (ops ++ [ConsoleOp.set_attr screen_80x25.wAttributes])
        = screen_80x25.wAttributes :=
  (write_restores_ambient_attribute find_next_ansi_code_w parse_ansi_code_w screen_80x25
    [97, 27, 91, 49, 59, 51, 49, 109, 98] 9 9 find_next_ansi_code_w_advances (by decide)).1

/-- C12 (as stated) fails: in `38;38;2 m` the second `38` is read as the
sub-parameter of the first, so the final `2` is folded as an ordinary
parameter and clears the intensity bit: the result `0x07` is not the result
`0x0F` of folding `pre = [38]` alone. After `pre = [38]` the next parameter
is not read as a parameter. -/
theorem truncated_selector_after_selector_not_dropped :
    sgr_params (params_buffer [38, 38, 2]) = [38] ++ [38] ++ [2] ∧
    sgr_params (params_buffer [38]) = [38] ∧
    fwrite_sgr_params CHAR_m (params_buffer [38, 38, 2]) 0x0F 0x07
      = some (0x07, [ConsoleOp.set_attr 0x07]) ∧
    fwrite_sgr_params CHAR_m (params_buffer [38]) 0x0F 0x07
      = some (0x0F, [ConsoleOp.set_attr 0x0F]) ∧
    (0x07 : Nat) ≠ 0x0F ∧
    sgr_next_is_param 0 [38] = false := by
  decide

/-- C12 (amended): for every buffer, the fold of an `m` token returns a value
(the bounds-checked loop never reads outside the buffer), the parameter count
is at most 32 and at most the buffer size, and the result depends on the
counted parameters only. For counted parameters `pre ++ [s] ++ t` with `s` in
`{38, 48}` read as a parameter, that is, not consumed as a sub-parameter of a
selector of `pre` (so in particular when `pre` contains neither `38` nor
`48`), and `t` one of `[]`, `[5]`, `[2]`, `[2, r]`, `[2, r, g]`, the result is
that of folding `pre` alone. -/
theorem fold_in_bounds_and_truncated_selector (params p1 p2 pre t : List Int) (s : Int)
    (current defaults : Nat) (hs : s = 38 ∨ s = 48)
    (hpre : sgr_next_is_param 0 pre = true)
    (ht : t = [] ∨ t = [5] ∨ t = [2] ∨ (∃ r, t = [2, r]) ∨ (∃ r g, t = [2, r, g]))
    (h1 : sgr_params p1 = pre ++ [s] ++ t) (h2 : sgr_params p2 = pre) :
    (∃ attr, fwrite_sgr_params CHAR_m params current defaults
        = some (attr, [ConsoleOp.set_attr attr])) ∧
    count_params params 0 ≤ 32 ∧ count_params params 0 ≤ params.length ∧
    (∀ params2 : List Int, sgr_params params2 = sgr_params params →
      fwrite_sgr_params CHAR_m params2 current defaults
        = fwrite_sgr_params CHAR_m params current defaults) ∧
    fwrite_sgr_params CHAR_m p1 current defaults
      = fwrite_sgr_params CHAR_m p2 current defaults ∧
    (∀ pre2 : List Int, (∀ p ∈ pre2, p ≠ 38 ∧ p ≠ 48) → sgr_next_is_param 0 pre2 = true) := by
  refine ⟨⟨_, fwrite_sgr_params_m params current defaults⟩,
    count_params_le_sizeof params 0 (by decide), count_params_zero_le params, ?_, ?_,
    sgr_next_is_param_plain⟩
  · intro params2 h
    rw [fwrite_sgr_params_m, fwrite_sgr_params_m, h]
  · have htail : ∀ attr, sgr_list defaults 0 attr ([s] ++ t) = attr := by
      intro attr
      rcases ht with h | h | h | ⟨r, h⟩ | ⟨r, g, h⟩ <;> subst h
      · exact sgr_list_cons_ext_nil defaults attr s hs
      · rw [List.singleton_append, sgr_list_cons_ext defaults attr s 5 [] hs]
        simp [sgr_list_nil]
      · rw [List.singleton_append, sgr_list_cons_ext defaults attr s 2 [] hs]
        simp [sgr_list_nil]
      · rw [List.singleton_append, sgr_list_cons_ext defaults attr s 2 [r] hs]
        simp [sgr_list_nil]
      · rw [List.singleton_append, sgr_list_cons_ext defaults attr s 2 [r, g] hs]
        simp [sgr_list_nil]
    rw [fwrite_sgr_params_m, fwrite_sgr_params_m, h1, h2, List.append_assoc,
      sgr_list_split defaults _ pre rfl 0 current ([s] ++ t) hpre, htail]

theorem fold_in_bounds_and_truncated_selector_witness :
    fwrite_sgr_params CHAR_m (params_buffer [38, 5, 196, 1, 48, 2, 9]) 0x07 0x07
      = fwrite_sgr_params CHAR_m (params_buffer [38, 5, 196, 1]) 0x07 0x07 :=
  (fold_in_bounds_and_truncated_selector (params_buffer [38, 5, 196, 1, 48, 2, 9])
    (params_buffer [38, 5, 196, 1, 48, 2, 9]) (params_buffer [38, 5, 196, 1]) [38, 5, 196, 1]
    [2, 9] 48 0x07 0x07 (Or.inr rfl) (by decide)
    (Or.inr (Or.inr (Or.inr (Or.inl ⟨9, rfl⟩)))) (by decide) (by decide)).2.2.2.2.1

/-- C13: `fwrite_sgr_code` returns the current attribute unchanged, and makes
no console call at all, when the terminator returned by the parser is not
`m`; and when the terminator is `m` and no parameter is counted it returns the
current attribute, the one call made setting that same attribute. -/
theorem token_without_effect (parse : List Nat → Nat × List Int) (code : List Nat)
    (current defaults : Nat) :
    ((parse code).1 ≠ CHAR_m →
      fwrite_sgr_code parse code current defaults = some (current, [])) ∧
    ((parse code).1 = CHAR_m → sgr_params (parse code).2 = [] →
      fwrite_sgr_code parse code current defaults
        = some (current, [ConsoleOp.set_attr current])) := by
  constructor
  · exact fwrite_sgr_code_not_m parse code current defaults
  · intro hm hempty
    unfold fwrite_sgr_code
    rw [hm, fwrite_sgr_params_m, hempty, sgr_list_nil]

/-- C20: for counted parameters `p ++ q` with `p` containing neither `38` nor
`48`, one `m` token returns the attribute that the token `p` followed by the
token `q`, with the same default attribute, returns. -/
theorem concatenated_params_as_two_tokens (ppq pp pq p q : List Int) (a d : Nat)
    (hp : ∀ x ∈ p, x ≠ 38 ∧ x ≠ 48)
    (hpq : sgr_params ppq = p ++ q) (hpp : sgr_params pp = p) (hq : sgr_params pq = q) :
    ∃ b c, fwrite_sgr_params CHAR_m pp a d = some (b, [ConsoleOp.set_attr b]) ∧
      fwrite_sgr_params CHAR_m pq b d = some (c, [ConsoleOp.set_attr c]) ∧
      fwrite_sgr_params CHAR_m ppq a d = some (c, [ConsoleOp.set_attr c]) := by
  refine ⟨_, _, fwrite_sgr_params_m pp a d, fwrite_sgr_params_m pq _ d, ?_⟩
  rw [fwrite_sgr_params_m, hpq, hpp, hq, sgr_list_append_plain d p q hp]

theorem concatenated_params_as_two_tokens_witness :
    ∃ b c, fwrite_sgr_params CHAR_m (params_buffer [1, 31]) 0x07 0x07
        = some (b, [ConsoleOp.set_attr b]) ∧
      fwrite_sgr_params CHAR_m (params_buffer [38, 5, 196, 44]) b 0x07
        = some (c, [ConsoleOp.set_attr c]) ∧
      fwrite_sgr_params CHAR_m (params_buffer [1, 31, 38, 5, 196, 44]) 0x07 0x07
        = some (c, [ConsoleOp.set_attr c]) :=
  concatenated_params_as_two_tokens (params_buffer [1, 31, 38, 5, 196, 44])
    (params_buffer [1, 31]) (params_buffer [38, 5, 196, 44]) [1, 31] [38, 5, 196, 44]
    0x07 0x07 (by decide) (by decide) (by decide) (by decide)

theorem token_without_effect_witness :
    fwrite_sgr_code parse_ansi_code_w [27, 91, 50, 74, 98] 0x0C 0x07 = some (0x0C, []) :=
  (token_without_effect parse_ansi_code_w [27, 91, 50, 74, 98] 0x0C 0x07).1 (by decide)

/-! ## Theorems: the carry protocol -/

set_option maxRecDepth 4000

theorem mod_map_carry_zero_or_entry (key_sc key_flags : Nat) :
    mod_map_carry key_sc key_flags mod_map 0 = 0
      ∨ mod_map_carry key_sc key_flags mod_map 0 ∈ mod_map.flatten := by
  have hentry : ∀ row ∈ mod_map, ∀ j < 4, row.getD j 0 ∈ mod_map.flatten := by decide
  rw [mod_map_carry_eq]
  cases hf : mod_map.find? (fun row => decide (row.getD 0 0 = key_sc)) with
  | none => exact Or.inl rfl
  | some row =>
    exact Or.inr (hentry row (List.mem_of_find?_eq_some hf) _ (mod_column_lt key_flags))

theorem shift_tab_carry_ok (k key_flags : Nat) : (shift_tab 0 k key_flags).carry_ok := by
  unfold shift_tab
  split_ifs
  · exact Or.inr ⟨rfl, Or.inl rfl⟩
  · exact Or.inl rfl

theorem enhanced_carry_ok (key_sc key_flags : Nat) :
    (if mod_map_carry key_sc key_flags mod_map 0 = 0
      then Flow.goto_loop (mod_map_carry key_sc key_flags mod_map 0)
      else Flow.ret 0xe0 (mod_map_carry key_sc key_flags mod_map 0)).carry_ok := by
  by_cases h : mod_map_carry key_sc key_flags mod_map 0 = 0
  · rw [if_pos h]
    exact h
  · rw [if_neg h]
    rcases mod_map_carry_zero_or_entry key_sc key_flags with h2 | h2
    · exact absurd h2 h
    · exact Or.inr ⟨rfl, Or.inr h2⟩

theorem ite_carry_ok (c : Prop) [Decidable c] (a b : Flow) (ha : a.carry_ok)
    (hb : b.carry_ok) : (if c then a else b).carry_ok := by
  by_cases h : c
  · rewrite [if_pos h]; exact ha
  · rewrite [if_neg h]; exact hb

/-- A pass that decodes a key with `carry = 0` leaves `carry` at `0`, unless
it returns `0xE0`, with `Z` or an entry of `mod_map` in `carry`. -/
theorem decode_key_carry_ok (key_char key_vk key_sc key_flags : Nat) :
    (decode_key 0 key_char key_vk key_sc key_flags).carry_ok := by
  by_cases h0 : key_char = 0
  · subst h0
    by_cases henh : key_flags &&& ENHANCED_KEY ≠ 0 ∨ key_vk ∈ enhanced_vks
    · rewrite [decode_key_enhanced 0 key_vk key_sc key_flags henh]
      exact enhanced_carry_ok key_sc key_flags
    · rewrite [not_or, not_not] at henh
      by_cases hctrl : key_flags &&& CTRL_PRESSED ≠ 0
      · have key : ∀ f : Flow, f = decode_key 0 0 key_vk key_sc key_flags → f.carry_ok := by
          intro f hf
          rewrite [decode_key_ctrl key_vk key_sc key_flags henh.1 henh.2 hctrl] at hf
          by_cases c1 : CONTAINS key_vk 65 90 = true
          · rewrite [if_pos c1] at hf; subst hf; exact shift_tab_carry_ok (key_vk - 64) key_flags
          rewrite [if_neg c1] at hf
          by_cases c2 : CONTAINS key_vk 0xdb 0xdd = true
          · rewrite [if_pos c2] at hf; subst hf; exact shift_tab_carry_ok (key_vk - 0xc0) key_flags
          rewrite [if_neg c2] at hf
          by_cases c3 : key_vk = 0x32
          · rewrite [if_pos c3] at hf; subst hf; exact shift_tab_carry_ok 0 key_flags
          rewrite [if_neg c3] at hf
          by_cases c4 : key_vk = 0x36
          · rewrite [if_pos c4] at hf; subst hf; exact shift_tab_carry_ok 0x1e key_flags
          rewrite [if_neg c4] at hf
          by_cases c5 : key_vk = 0xbd
          · rewrite [if_pos c5] at hf; subst hf; exact shift_tab_carry_ok 0x1f key_flags
          rewrite [if_neg c5] at hf
          rewrite [hf]
          simp only [Flow.carry_ok]
        exact key _ rfl
      · rewrite [not_not] at hctrl
        have hdec : decode_key 0 0 key_vk key_sc key_flags = Flow.goto_loop 0 := by
          unfold decode_key
          simp only [if_true, if_neg henh.2, henh.1, ne_eq, not_true_eq_false, if_false,
            hctrl]
        rewrite [hdec]
        simp only [Flow.carry_ok]
  · unfold decode_key
    rewrite [if_neg h0]
    exact ite_carry_ok _ _ _ (shift_tab_carry_ok _ _) (shift_tab_carry_ok _ _)

theorem toPass_carry_ok (g : Nat) (c : ConsoleIn) (f : Flow) (hf : f.carry_ok) :
    match f.toPass g c with
    | Pass.again st2 _ _ => st2.carry = 0
    | Pass.done k st2 _ _ => (Flow.ret k st2.carry).carry_ok
    | Pass.blocked => True := by
  cases f with
  | goto_loop carry => exact hf
  | ret key_char carry => exact hf

/-- A pass of `read()` that starts with `carry = 0` ends with `carry = 0`,
unless it returns `0xE0`, with `Z` or an entry of `mod_map` in `carry`. -/
theorem read_pass_carry_ok (setting : String → Int) (st : Statics) (con : ConsoleIn)
    (hc : st.carry = 0) :
    match read_pass setting st con with
    | Pass.again st2 _ _ => st2.carry = 0
    | Pass.done k st2 _ _ => (Flow.ret k st2.carry).carry_ok
    | Pass.blocked => True := by
  obtain ⟨carry, g⟩ := st
  simp only at hc
  subst hc
  obtain ⟨scr, inp⟩ := con
  unfold read_pass
  simp only [ne_eq, not_true_eq_false, if_false]
  cases scr with
  | nil => trivial
  | cons csbi screen =>
    simp only []
    cases hrc : resize_check g (buffer_size csbi) with
    | some p => obtain ⟨r, g2⟩ := p; exact rfl
    | none =>
      simp only []
      cases inp with
      | nil => trivial
      | cons record input =>
        simp only []
        by_cases hk : record.EventType = KEY_EVENT
        · simp only [hk, not_true_eq_false, if_false]
          cases screen with
          | nil => trivial
          | cons csbi2 screen2 =>
            simp only []
            have hw : ¬ KEY_EVENT = WINDOW_BUFFER_SIZE_EVENT := by decide
            simp only [if_neg hw]
            by_cases hd : record.KeyEvent.bKeyDown = false
            · simp only [hd, if_true]
              by_cases hm : record.KeyEvent.wVirtualKeyCode = VK_MENU
                  ∧ record.KeyEvent.UnicodeChar ≠ 0
              · simp only [if_pos hm]
                exact Or.inl rfl
              · simp only [if_neg hm]
            · simp only [hd, if_false]
              exact toPass_carry_ok _ _ _ (decode_key_carry_ok _ _ _ _)
        · simp only [hk, not_false_eq_true, if_true]

theorem read_carry_ok (setting : String → Int) : ∀ (fuel : Nat) (st : Statics)
    (con : ConsoleIn) (n : Nat) (r : ReadResult), st.carry = 0 →
    read setting fuel st con n = some r → (Flow.ret r.key_char r.st.carry).carry_ok := by
  intro fuel
  induction fuel with
  | zero => intro st con n r _ h; exact absurd h (by simp [read])
  | succ fuel ih =>
    intro st con n r hc h
    have hp := read_pass_carry_ok setting st con hc
    rw [read] at h
    cases hpass : read_pass setting st con with
    | blocked => rw [hpass] at h; exact absurd h (by simp)
    | again st2 con2 r2 =>
      rw [hpass] at h hp
      exact ih st2 con2 _ r hp h
    | done k st2 con2 r2 =>
      rw [hpass] at h hp
      simp only [Option.some.injEq] at h
      rw [← h]
      exact hp

theorem carry_value_ne (c : Nat) (h : c = 90 ∨ c ∈ mod_map.flatten) : c ≠ 0 ∧ c ≠ 9 := by
  have hall : ∀ x ∈ mod_map.flatten, x ≠ 0 ∧ x ≠ 9 := by decide
  rcases h with h | h
  · subst h; decide
  · exact hall c h

theorem read_with_carry (setting : String → Int) (fuel c g : Nat) (con : ConsoleIn) (n : Nat)
    (h : c = 90 ∨ c ∈ mod_map.flatten) :
    read setting (fuel + 1) ⟨c, g⟩ con n = some ⟨c, ⟨0, g⟩, con, n⟩ := by
  rw [read, read_pass_carry setting c g con (carry_value_ne c h).1 (carry_value_ne c h).2]
  simp only [Nat.add_zero]

/-- In every reachable state `carry` is `0`, `Z` or an entry of `mod_map`. -/
theorem reachable_carry (st : Statics) (h : Reachable st) :
    st.carry = 0 ∨ st.carry = 90 ∨ st.carry ∈ mod_map.flatten := by
  induction h with
  | start => exact Or.inl rfl
  | call setting fuel st con n r _ hread ih =>
    by_cases hc : st.carry = 0
    · have hok := read_carry_ok setting fuel st con n r hc hread
      rcases hok with h0 | ⟨_, h2⟩
      · exact Or.inl h0
      · exact Or.inr h2
    · have hval : st.carry = 90 ∨ st.carry ∈ mod_map.flatten := by
        rcases ih with h | h
        · exact absurd h hc
        · exact h
      cases fuel with
      | zero => exact absurd hread (by simp [read])
      | succ fuel =>
        obtain ⟨c, g⟩ := st
        rw [read_with_carry setting fuel c g con n hval] at hread
        simp only [Option.some.injEq] at hread
        rw [← hread]
        exact Or.inl rfl

/-- C14: in every reachable state and for every console trace, a call of
`read()` that starts with `carry = c`, `c` not `0`, returns exactly `c`, takes
nothing from the console trace and leaves `carry = 0`; and a call that returns
with `carry` not `0` has just returned the marker `0xE0`, the carried value
being `Z` or an entry of `mod_map`. -/
theorem carry_protocol (st : Statics) (hreach : Reachable st) :
    (st.carry ≠ 0 → ∀ (setting : String → Int) (fuel : Nat) (con : ConsoleIn) (n : Nat),
      read setting (fuel + 1) st con n
        = some ⟨st.carry, ⟨0, st.g_last_buffer_size⟩, con, n⟩) ∧
    (∀ (setting : String → Int) (fuel : Nat) (con : ConsoleIn) (n : Nat) (r : ReadResult),
      read setting fuel st con n = some r → r.st.carry ≠ 0 →
      r.key_char = 0xe0 ∧ (r.st.carry = 90 ∨ r.st.carry ∈ mod_map.flatten)) := by
  have hinv := reachable_carry st hreach
  constructor
  · intro hc setting fuel con n
    have hval : st.carry = 90 ∨ st.carry ∈ mod_map.flatten := by
      rcases hinv with h | h
      · exact absurd h hc
      · exact h
    obtain ⟨c, g⟩ := st
    exact read_with_carry setting fuel c g con n hval
  · intro setting fuel con n r hread hne
    by_cases hc : st.carry = 0
    · rcases read_carry_ok setting fuel st con n r hc hread with h0 | h
      · exact absurd h0 hne
      · exact h
    · exfalso
      have hval : st.carry = 90 ∨ st.carry ∈ mod_map.flatten := by
        rcases hinv with h | h
        · exact absurd h hc
        · exact h
      cases fuel with
      | zero => exact absurd hread (by simp [read])
      | succ fuel =>
        obtain ⟨c, g⟩ := st
        rw [read_with_carry setting fuel c g con n hval] at hread
        simp only [Option.some.injEq] at hread
        rw [← hread] at hne
        exact hne rfl

theorem carry_protocol_witness :
    read settings_off (0 + 1) ⟨0x61, buffer_size screen_80x25⟩ ⟨[], []⟩ 0
      = some ⟨0x61, ⟨0, buffer_size screen_80x25⟩, ⟨[], []⟩, 0⟩ :=
  (carry_protocol ⟨0x61, buffer_size screen_80x25⟩
    (Reachable.call settings_off 2 ⟨0, 0⟩
      ⟨[screen_80x25, screen_80x25, screen_80x25], [key_down 0 VK_HOME 0x47 0x110]⟩ 0
      ⟨0xe0, ⟨0x61, buffer_size screen_80x25⟩, ⟨[], []⟩, 0⟩ Reachable.start (by decide))).1
    (by decide) settings_off 0 ⟨[], []⟩ 0

/-! ## Theorems: characters and the AltGr gate -/

theorem tag_ge (c : Nat) : 0x8000000 ≤ c ||| 0x8000000 := by
  have hbit : (c ||| 0x8000000).testBit 27 = true := by
    rw [Nat.testBit_or, show (0x8000000 : Nat).testBit 27 = true by decide, Bool.or_true]
  exact Nat.testBit_implies_ge hbit

theorem and_mask_of_lt (c : Nat) (hc : c < 2 ^ 16) : c &&& 0xF7FFFFFF = c := by
  apply Nat.eq_of_testBit_eq
  intro k
  rw [Nat.testBit_and]
  by_cases hk : k < 16
  · have hbit : (0xF7FFFFFF : Nat).testBit k = true := by interval_cases k <;> decide
    rw [hbit, Bool.and_true]
  · rw [testBit_false_of_lt c k 16 hc (by omega), Bool.false_and]

theorem tag_cleared (c : Nat) (hc : c ≤ 0xFFFF) : (c ||| 0x8000000) &&& 0xF7FFFFFF = c := by
  rw [and_or_right, show (0x8000000 : Nat) &&& 0xF7FFFFFF = 0 by decide, Nat.or_zero]
  exact and_mask_of_lt c (by norm_num; omega)

theorem decode_key_char (c key_vk key_sc key_flags : Nat) (hc : c ≠ 0) :
    decode_key 0 c key_vk key_sc key_flags
      = if key_flags &&& ENHANCED_KEY = 0 ∧ c > 0x7f
        then shift_tab 0 (c ||| 0x8000000) key_flags else shift_tab 0 c key_flags := by
  unfold decode_key
  rw [if_neg hc]

theorem altgr_gate_open (setting : String → Int) (key : KEY_EVENT_RECORD)
    (hgate : ¬(key.dwControlKeyState &&& LEFT_ALT_PRESSED ≠ 0
      ∧ key.dwControlKeyState &&& (LEFT_CTRL_PRESSED ||| RIGHT_CTRL_PRESSED) ≠ 0
      ∧ setting "use_altgr_substitute" = 0)) :
    ¬ ((decide (key.dwControlKeyState &&& LEFT_ALT_PRESSED ≠ 0)
        && decide (key.dwControlKeyState
            &&& (LEFT_CTRL_PRESSED ||| RIGHT_CTRL_PRESSED) ≠ 0)
        && decide (key.UnicodeChar ≠ 0)) = true
      ∧ setting "use_altgr_substitute" = 0) := by
  intro h
  apply hgate
  obtain ⟨h1, h2⟩ := h
  simp only [Bool.and_eq_true, decide_eq_true_eq] at h1
  exact ⟨h1.1.1, h1.1.2, h2⟩

/-- The pass that reads a key-down record whose character passes the AltGr
gate: the character is tagged when it is above `0x7F` and the enhanced-key
flag is clear, then the shift-tab test is applied. -/
theorem read_pass_char (setting : String → Int) (st : Statics)
    (csbi csbi2 : CONSOLE_SCREEN_BUFFER_INFO) (screen : List CONSOLE_SCREEN_BUFFER_INFO)
    (input : List INPUT_RECORD) (key : KEY_EVENT_RECORD)
    (hcarry : st.carry = 0) (hg : st.g_last_buffer_size ≠ 0)
    (hsame : buffer_size csbi = st.g_last_buffer_size) (hdown : key.bKeyDown = true)
    (hc0 : key.UnicodeChar ≠ 0)
    (hgate : ¬(key.dwControlKeyState &&& LEFT_ALT_PRESSED ≠ 0
      ∧ key.dwControlKeyState &&& (LEFT_CTRL_PRESSED ||| RIGHT_CTRL_PRESSED) ≠ 0
      ∧ setting "use_altgr_substitute" = 0)) :
    read_pass setting st ⟨csbi :: csbi2 :: screen, ⟨KEY_EVENT, key⟩ :: input⟩
      = (if key.dwControlKeyState &&& ENHANCED_KEY = 0 ∧ key.UnicodeChar > 0x7f
          then shift_tab 0 (key.UnicodeChar ||| 0x8000000) key.dwControlKeyState
          else shift_tab 0 key.UnicodeChar key.dwControlKeyState).toPass
          st.g_last_buffer_size ⟨screen, input⟩ := by
  rw [read_pass_key_down setting st csbi csbi2 screen input key hcarry hg hsame hdown,
    if_neg (altgr_gate_open setting key hgate), decode_key_char _ _ _ _ hc0]

/-- C15 (as stated) fails, at three events read with no pending code. The
accepted Alt key-up that carries `0xE9`, enhanced-key flag clear, jumps to
`end:` and `read()` returns `0xE9`, not `0xE9 | 0x8000000`. A key-down that
produces `0xE9` with left-Alt and left-Ctrl held, `use_altgr_substitute` at
`0`, loses its character at the AltGr gate and `read()` returns the control
code 5 of its virtual key `E`. A key-down that produces the tab character
with Shift held returns the marker `0xE0`, not the character. -/
theorem char_not_returned_as_claimed :
    (read settings_off 1 statics_80x25
        ⟨[screen_80x25, screen_80x25], [key_up 0xE9 VK_MENU 0x38 0]⟩ 0
      = some ⟨0xE9, statics_80x25, ⟨[], []⟩, 0⟩ ∧
      (0x7F : Nat) < 0xE9 ∧ (0 : Nat) &&& ENHANCED_KEY = 0 ∧
      (0xE9 : Nat) ≠ 0xE9 ||| 0x8000000) ∧
    (read settings_off 1 statics_80x25
        ⟨[screen_80x25, screen_80x25],
          [key_down 0xE9 0x45 0x12 (LEFT_ALT_PRESSED ||| LEFT_CTRL_PRESSED)]⟩ 0
      = some ⟨5, statics_80x25, ⟨[], []⟩, 0⟩ ∧
      (LEFT_ALT_PRESSED ||| LEFT_CTRL_PRESSED) &&& ENHANCED_KEY = 0) ∧
    (read settings_off 1 statics_80x25
        ⟨[screen_80x25, screen_80x25], [key_down 9 9 0x0f SHIFT_PRESSED]⟩ 0
      = some ⟨0xe0, ⟨90, statics_80x25.g_last_buffer_size⟩, ⟨[], []⟩, 0⟩ ∧
      (9 : Nat) ≤ 0x7F ∧ (0xe0 : Nat) ≠ 9) := by
  decide

/-- C15 (amended): a key-down event whose character `c` (not `0`, at most
`0xFFFF`) passes the AltGr gate, read with no pending code and an unchanged
geometry. When `c` is above `0x7F` and the enhanced-key flag is clear,
`read()` returns `c | 0x8000000`; that value is above `0xFFFF`, so it differs
from every 16-bit code, and clearing the marker bit gives `c` back. When the
enhanced-key flag is set or `c` is at most `0x7F`, `read()` returns `c` itself,
unless `c` is the tab character with Shift held. -/
theorem key_down_char_tagging (setting : String → Int) (fuel resizes : Nat)
    (st : Statics) (csbi csbi2 : CONSOLE_SCREEN_BUFFER_INFO)
    (screen : List CONSOLE_SCREEN_BUFFER_INFO) (input : List INPUT_RECORD)
    (key : KEY_EVENT_RECORD)
    (hcarry : st.carry = 0) (hg : st.g_last_buffer_size ≠ 0)
    (hsame : buffer_size csbi = st.g_last_buffer_size)
    (hdown : key.bKeyDown = true)
    (hc0 : key.UnicodeChar ≠ 0) (hc16 : key.UnicodeChar ≤ 0xFFFF)
    (hgate : ¬(key.dwControlKeyState &&& LEFT_ALT_PRESSED ≠ 0
      ∧ key.dwControlKeyState &&& (LEFT_CTRL_PRESSED ||| RIGHT_CTRL_PRESSED) ≠ 0
      ∧ setting "use_altgr_substitute" = 0)) :
    (0x7F < key.UnicodeChar → key.dwControlKeyState &&& ENHANCED_KEY = 0 →
      read setting (fuel + 1) st ⟨csbi :: csbi2 :: screen, ⟨KEY_EVENT, key⟩ :: input⟩ resizes
        = some ⟨key.UnicodeChar ||| 0x8000000, ⟨0, st.g_last_buffer_size⟩, ⟨screen, input⟩,
            resizes⟩ ∧
      0xFFFF < key.UnicodeChar ||| 0x8000000 ∧
      (key.UnicodeChar ||| 0x8000000) &&& 0xF7FFFFFF = key.UnicodeChar) ∧
    (key.dwControlKeyState &&& ENHANCED_KEY ≠ 0 ∨ key.UnicodeChar ≤ 0x7F →
      ¬(key.UnicodeChar = 9 ∧ key.dwControlKeyState &&& SHIFT_PRESSED ≠ 0) →
      read setting (fuel + 1) st ⟨csbi :: csbi2 :: screen, ⟨KEY_EVENT, key⟩ :: input⟩ resizes
        = some ⟨key.UnicodeChar, ⟨0, st.g_last_buffer_size⟩, ⟨screen, input⟩, resizes⟩) := by
  have hpass := read_pass_char setting st csbi csbi2 screen input key hcarry hg hsame hdown
    hc0 hgate
  constructor
  · intro hhigh hflag
    have hge := tag_ge key.UnicodeChar
    refine ⟨?_, by omega, tag_cleared _ hc16⟩
    have hne : ¬(key.UnicodeChar ||| 0x8000000 = 9
        ∧ key.dwControlKeyState &&& SHIFT_PRESSED ≠ 0) := by
      intro h; omega
    rw [read, hpass, if_pos ⟨hflag, hhigh⟩, shift_tab_plain _ _ hne]
    simp only [Flow.toPass, Nat.add_zero]
  · intro hlow hne
    have hcond : ¬(key.dwControlKeyState &&& ENHANCED_KEY = 0 ∧ key.UnicodeChar > 0x7f) := by
      intro h
      rcases hlow with h1 | h1
      · exact h1 h.1
      · omega
    rw [read, hpass, if_neg hcond, shift_tab_plain _ _ hne]
    simp only [Flow.toPass, Nat.add_zero]

theorem key_down_char_tagging_witness :
    read settings_off (0 + 1) statics_80x25
        ⟨screen_80x25 :: screen_80x25 :: [], ⟨KEY_EVENT, ⟨true, 0xE9, 0x32, 0x03, 0⟩⟩ :: []⟩ 0
      = some ⟨0xE9 ||| 0x8000000, ⟨0, statics_80x25.g_last_buffer_size⟩, ⟨[], []⟩, 0⟩ ∧
    0xFFFF < 0xE9 ||| 0x8000000 ∧ (0xE9 ||| 0x8000000) &&& 0xF7FFFFFF = 0xE9 :=
  (key_down_char_tagging settings_off 0 0 statics_80x25 screen_80x25 screen_80x25 [] []
    ⟨true, 0xE9, 0x32, 0x03, 0⟩ rfl (by decide) rfl rfl (by decide) (by decide)
    (by decide)).1 (by decide) (by decide)

/-- C17 (as stated) fails: with `use_altgr_substitute` at `1`, a key-down with
left-Alt, left-Ctrl and Shift held that produces the tab character is kept as
an AltGr substitute, and the shift-tab special case then returns the marker
`0xE0` (with `Z` carried), not the character 9. -/
theorem altgr_shift_tab_returns_marker :
    settings_on "use_altgr_substitute" ≠ 0 ∧
    read settings_on 1 statics_80x25
        ⟨[screen_80x25, screen_80x25],
          [key_down 9 9 0x0f (LEFT_ALT_PRESSED ||| LEFT_CTRL_PRESSED ||| SHIFT_PRESSED)]⟩ 0
      = some ⟨0xe0, ⟨90, statics_80x25.g_last_buffer_size⟩, ⟨[], []⟩, 0⟩ ∧
    (0xe0 : Nat) ≠ 9 := by
  decide

/-- C17 (amended): a key-down event with left-Alt set, a Ctrl bit set and a
character `c` that is not `0`, read with no pending code and an unchanged
geometry. When `use_altgr_substitute` is not `0`, `read()` returns `c`,
tagged when above `0x7F` and the enhanced-key flag clear, unless `c` is the
tab character with Shift held, for which it returns the marker `0xE0` with
`Z` carried. When the setting is `0`, the pass, and so the call, does exactly
what it does for the same event with the character absent. -/
theorem altgr_substitute_gate (setting : String → Int) (fuel resizes : Nat)
    (st : Statics) (csbi csbi2 : CONSOLE_SCREEN_BUFFER_INFO)
    (screen : List CONSOLE_SCREEN_BUFFER_INFO) (input : List INPUT_RECORD)
    (key : KEY_EVENT_RECORD)
    (hcarry : st.carry = 0) (hg : st.g_last_buffer_size ≠ 0)
    (hsame : buffer_size csbi = st.g_last_buffer_size)
    (hdown : key.bKeyDown = true)
    (halt : key.dwControlKeyState &&& LEFT_ALT_PRESSED ≠ 0)
    (hctrl : key.dwControlKeyState &&& (LEFT_CTRL_PRESSED ||| RIGHT_CTRL_PRESSED) ≠ 0)
    (hc0 : key.UnicodeChar ≠ 0) :
    (setting "use_altgr_substitute" ≠ 0 →
      ¬(key.UnicodeChar = 9 ∧ key.dwControlKeyState &&& SHIFT_PRESSED ≠ 0) →
      read setting (fuel + 1) st ⟨csbi :: csbi2 :: screen, ⟨KEY_EVENT, key⟩ :: input⟩ resizes
        = some ⟨if key.dwControlKeyState &&& ENHANCED_KEY = 0 ∧ key.UnicodeChar > 0x7f
              then key.UnicodeChar ||| 0x8000000 else key.UnicodeChar,
            ⟨0, st.g_last_buffer_size⟩, ⟨screen, input⟩, resizes⟩) ∧
    (setting "use_altgr_substitute" ≠ 0 → key.UnicodeChar = 9 →
      key.dwControlKeyState &&& SHIFT_PRESSED ≠ 0 →
      read setting (fuel + 1) st ⟨csbi :: csbi2 :: screen, ⟨KEY_EVENT, key⟩ :: input⟩ resizes
        = some ⟨0xe0, ⟨90, st.g_last_buffer_size⟩, ⟨screen, input⟩, resizes⟩) ∧
    (setting "use_altgr_substitute" = 0 →
      read_pass setting st ⟨csbi :: csbi2 :: screen, ⟨KEY_EVENT, key⟩ :: input⟩
        = read_pass setting st ⟨csbi :: csbi2 :: screen,
            ⟨KEY_EVENT, ⟨key.bKeyDown, 0, key.wVirtualKeyCode, key.wVirtualScanCode,
              key.dwControlKeyState⟩⟩ :: input⟩ ∧
      read setting (fuel + 1) st ⟨csbi :: csbi2 :: screen, ⟨KEY_EVENT, key⟩ :: input⟩ resizes
        = read setting (fuel + 1) st ⟨csbi :: csbi2 :: screen,
            ⟨KEY_EVENT, ⟨key.bKeyDown, 0, key.wVirtualKeyCode, key.wVirtualScanCode,
              key.dwControlKeyState⟩⟩ :: input⟩ resizes) := by
  refine ⟨?_, ?_, ?_⟩
  · intro hset hne
    have hgate : ¬(key.dwControlKeyState &&& LEFT_ALT_PRESSED ≠ 0
        ∧ key.dwControlKeyState &&& (LEFT_CTRL_PRESSED ||| RIGHT_CTRL_PRESSED) ≠ 0
        ∧ setting "use_altgr_substitute" = 0) := fun h => hset h.2.2
    have hpass := read_pass_char setting st csbi csbi2 screen input key hcarry hg hsame hdown
      hc0 hgate
    by_cases hcond : key.dwControlKeyState &&& ENHANCED_KEY = 0 ∧ key.UnicodeChar > 0x7f
    · have hge := tag_ge key.UnicodeChar
      have hne2 : ¬(key.UnicodeChar ||| 0x8000000 = 9
          ∧ key.dwControlKeyState &&& SHIFT_PRESSED ≠ 0) := by
        intro h; omega
      rw [read, hpass, if_pos hcond, if_pos hcond, shift_tab_plain _ _ hne2]
      simp only [Flow.toPass, Nat.add_zero]
    · rw [read, hpass, if_neg hcond, if_neg hcond, shift_tab_plain _ _ hne]
      simp only [Flow.toPass, Nat.add_zero]
  · intro hset h9 hshift
    have hgate : ¬(key.dwControlKeyState &&& LEFT_ALT_PRESSED ≠ 0
        ∧ key.dwControlKeyState &&& (LEFT_CTRL_PRESSED ||| RIGHT_CTRL_PRESSED) ≠ 0
        ∧ setting "use_altgr_substitute" = 0) := fun h => hset h.2.2
    have hpass := read_pass_char setting st csbi csbi2 screen input key hcarry hg hsame hdown
      hc0 hgate
    have hcond : ¬(key.dwControlKeyState &&& ENHANCED_KEY = 0 ∧ key.UnicodeChar > 0x7f) := by
      intro h; omega
    rw [read, hpass, if_neg hcond, h9, shift_tab_tab _ hshift]
    simp only [Flow.toPass, Nat.add_zero]
  · intro hset
    have hpass : read_pass setting st ⟨csbi :: csbi2 :: screen, ⟨KEY_EVENT, key⟩ :: input⟩
        = read_pass setting st ⟨csbi :: csbi2 :: screen,
            ⟨KEY_EVENT, ⟨key.bKeyDown, 0, key.wVirtualKeyCode, key.wVirtualScanCode,
              key.dwControlKeyState⟩⟩ :: input⟩ := by
      rw [read_pass_key_down setting st csbi csbi2 screen input key hcarry hg hsame hdown,
        read_pass_key_down setting st csbi csbi2 screen input
          ⟨key.bKeyDown, 0, key.wVirtualKeyCode, key.wVirtualScanCode, key.dwControlKeyState⟩
          hcarry hg hsame hdown]
      have h1 : (decide (key.dwControlKeyState &&& LEFT_ALT_PRESSED ≠ 0)
          && decide (key.dwControlKeyState
              &&& (LEFT_CTRL_PRESSED ||| RIGHT_CTRL_PRESSED) ≠ 0)
          && decide (key.UnicodeChar ≠ 0)) = true
          ∧ setting "use_altgr_substitute" = 0 := by
        refine ⟨?_, hset⟩
        simp only [Bool.and_eq_true, decide_eq_true_eq]
        exact ⟨⟨halt, hctrl⟩, hc0⟩
      rw [if_pos h1]
      simp only [ne_eq, not_true_eq_false, decide_False, Bool.and_false, Bool.false_eq_true,
        false_and, if_false]
    refine ⟨hpass, ?_⟩
    rw [read, read, hpass]

theorem altgr_substitute_gate_witness :
    read settings_on (0 + 1) statics_80x25
        ⟨screen_80x25 :: screen_80x25 :: [],
          ⟨KEY_EVENT, ⟨true, 0x40, 0x32, 0x03, LEFT_ALT_PRESSED ||| LEFT_CTRL_PRESSED⟩⟩ :: []⟩ 0
      = some ⟨if (LEFT_ALT_PRESSED ||| LEFT_CTRL_PRESSED) &&& ENHANCED_KEY = 0
              ∧ (0x40 : Nat) > 0x7f
            then 0x40 ||| 0x8000000 else 0x40,
          ⟨0, statics_80x25.g_last_buffer_size⟩, ⟨[], []⟩, 0⟩ :=
  (altgr_substitute_gate settings_on 0 0 statics_80x25 screen_80x25 screen_80x25 [] []
    ⟨true, 0x40, 0x32, 0x03, LEFT_ALT_PRESSED ||| LEFT_CTRL_PRESSED⟩ rfl (by decide) rfl rfl
    (by decide) (by decide) (by decide)).1 (by decide) (by decide)

/-! ## Theorems: capability detection -/

theorem find_dll_iff (GetModuleHandle : String → Bool) : ∀ names : List String,
    find_dll GetModuleHandle names = true ↔ ∃ name ∈ names, GetModuleHandle name = true := by
  intro names
  induction names with
  | nil => simp [find_dll]
  | cons name rest ih =>
    by_cases h : GetModuleHandle name = true
    · simp [find_dll, h]
    · simp [find_dll, h, ih]

/-- C16: for a freshly constructed terminal (`m_enable_sgr = true`), after
`check_sgr_support()` the flag is `true` exactly when none of the five modules
of `dll_names` is loaded and the setting `ansi_code_support` is not `0`; when
one of the modules is loaded the flag is `false` and no setting is queried;
the five names are those of the table. -/
theorem check_sgr_support_flag (GetModuleHandle : String → Bool) (setting : String → Int) :
    ((check_sgr_support GetModuleHandle setting m_enable_sgr_init).1 = true ↔
      (∀ name ∈ dll_names, GetModuleHandle name = false)
        ∧ setting "ansi_code_support" ≠ 0) ∧
    ((∃ name ∈ dll_names, GetModuleHandle name = true) →
      check_sgr_support GetModuleHandle setting m_enable_sgr_init = (false, [])) ∧
    dll_names = ["conemuhk.dll", "conemuhk64.dll", "ansi.dll", "ansi32.dll", "ansi64.dll"] := by
  refine ⟨?_, ?_, rfl⟩
  · unfold check_sgr_support
    by_cases hdll : find_dll GetModuleHandle dll_names = true
    · rw [if_pos hdll]
      obtain ⟨name, hname, hloaded⟩ := (find_dll_iff GetModuleHandle dll_names).mp hdll
      constructor
      · intro h; exact absurd h (by simp)
      · intro h
        have := h.1 name hname
        rw [hloaded] at this
        exact absurd this (by simp)
    · rw [if_neg hdll]
      have hnone : ∀ name ∈ dll_names, GetModuleHandle name = false := by
        intro name hname
        by_contra hc
        exact hdll ((find_dll_iff GetModuleHandle dll_names).mpr
          ⟨name, hname, by simpa using hc⟩)
      by_cases hset : setting "ansi_code_support" = 0
      · rw [if_pos hset]
        constructor
        · intro h; exact absurd h (by simp)
        · intro h; exact absurd hset h.2
      · rw [if_neg hset]
        constructor
        · intro _; exact ⟨hnone, hset⟩
        · intro _; rfl
  · intro h
    unfold check_sgr_support
    rw [if_pos ((find_dll_iff GetModuleHandle dll_names).mpr h)]

/-! ## Theorems: `write()` and the character count -/

/-- C18: with translation enabled `write()` never looks at `char_count`: for
the buffer `abc`, which holds no escape token, and `char_count = 2` it sends
`abc` to the console writer, where the call with translation disabled sends
the first two characters `ab`. -/
theorem write_enabled_ignores_char_count :
    find_next_ansi_code_w [97, 98, 99] = (3, 0) ∧
    write find_next_ansi_code_w parse_ansi_code_w true screen_80x25 [97, 98, 99] 2 3
      = some [ConsoleOp.write_text [97, 98, 99], ConsoleOp.set_attr 7] ∧
    write find_next_ansi_code_w parse_ansi_code_w false screen_80x25 [97, 98, 99] 2 3
      = some [ConsoleOp.write_text [97, 98]] ∧
    (∀ (find : List Nat → Nat × Nat) (parse : List Nat → Nat × List Int)
        (csbi : CONSOLE_SCREEN_BUFFER_INFO) (chars : List Nat) (n1 n2 fuel : Nat),
      write find parse true csbi chars n1 fuel = write find parse true csbi chars n2 fuel) := by
  refine ⟨by decide, by decide, by decide, ?_⟩
  intro find parse csbi chars n1 n2 fuel
  rfl

/-! ## Theorems: the table `mod_map` -/

end Clink
